import Mathlib

/-
Verification of the cross-year aggregation and ranking core of the LVMH
portfolio dashboard (app.py, demo.py, generate_verified_mentions.py,
generate_standardized_verified.py, compare_data.py, test_data.py).

The Python tables are shallowly embedded: a pandas DataFrame row of a
mentions table becomes a `MentionRow`, a details row becomes a `DetailRow`,
the `data` dict of `load_data` becomes an association list from string keys
to tables, and pandas column assignments become pure functions returning the
post-assignment table (the Python functions mutate their argument in place
and return it, so the returned value is also the state of the argument
object after the call).
-/

namespace Lvmh

/- The ten fixed activity categories, in the order the source lists them. -/
inductive Category where
  | product | place | partnership | esg | performance
  | digital | pricing | promotion | people | awards
  deriving DecidableEq, Repr

def Category.all : List Category :=
  [.product, .place, .partnership, .esg, .performance,
   .digital, .pricing, .promotion, .people, .awards]

/--
One row of a mentions table: the Maison name, the ten integer category
columns, the Total_Mentions column as loaded from the file, and the Rank
column (absent, i.e. `none`, until `create_cross_year_ranking` assigns it).
The Year column of the files is not consulted by any aggregation in app.py
and is omitted from this row type.
-/
structure MentionRow where
  maison : String
  product : Nat
  place : Nat
  partnership : Nat
  esg : Nat
  performance : Nat
  digital : Nat
  pricing : Nat
  promotion : Nat
  people : Nat
  awards : Nat
  totalMentions : Nat
  rank : Option Nat := none
  deriving DecidableEq, Repr

def getCat (r : MentionRow) : Category → Nat
  | .product => r.product
  | .place => r.place
  | .partnership => r.partnership
  | .esg => r.esg
  | .performance => r.performance
  | .digital => r.digital
  | .pricing => r.pricing
  | .promotion => r.promotion
  | .people => r.people
  | .awards => r.awards

/--
Row-wise sum of the ten category columns, in source order:
`df[categories].sum(axis=1)` for the fixed category list of app.py line 97.
-/
def catSum (r : MentionRow) : Nat :=
  r.product + r.place + r.partnership + r.esg + r.performance +
  r.digital + r.pricing + r.promotion + r.people + r.awards

/--
app.py `calculate_total_mentions` (lines 95-100):
`df['Total_Mentions'] = df[categories].sum(axis=1); return df`.
The column assignment happens on the very DataFrame passed in; the value
returned here is both the return value and the post-call state of the
argument object.
-/
def calculate_total_mentions (df : List MentionRow) : List MentionRow :=
  df.map (fun r => { r with totalMentions := catSum r })

/- One cell of a details table: either a missing value (pandas NaN) or a
string. A numeric cell `0` read from Excel is modelled as the string cell
"0", matching the `str(value)` coercion every consumer applies. -/
inductive Cell where
  | na
  | str (s : String)
  deriving DecidableEq, Repr

/--
One row of a details table: the Maison name plus the free-text activity
cells, keyed by column name (`Product_1`, ..., `Awards_1`, and any other
columns such as `Year`).
-/
structure DetailRow where
  maison : String
  cells : List (String × Cell)
  deriving DecidableEq, Repr

/- A loaded table is either a mentions table or a details table; the
`data` dict of `load_data` holds both kinds under disjoint keys. -/
inductive Table where
  | mentions (rows : List MentionRow)
  | details (rows : List DetailRow)
  deriving DecidableEq, Repr

/- The `data` dict built by `load_data`: insertion-ordered keys
(`mentions_2019`, `details_2019`, ...) mapped to loaded tables. -/
abbrev Data := List (String × Table)

def assocLookup {α : Type} (l : List (String × α)) (k : String) : Option α :=
  match l with
  | [] => none
  | (k₀, v) :: rest => if k₀ = k then some v else assocLookup rest k

/- `data[year_key]` where a mentions table is expected. -/
def lookupMentions (data : Data) (k : String) : Option (List MentionRow) :=
  match assocLookup data k with
  | some (.mentions df) => some df
  | _ => none

/- `data[year_key]` where a details table is expected. -/
def lookupDetails (data : Data) (k : String) : Option (List DetailRow) :=
  match assocLookup data k with
  | some (.details df) => some df
  | _ => none

/- The fixed period list of app.py (lines 64, 104, ...). -/
def yearsList : List String :=
  ["2019", "2020", "2021", "2022", "2023", "2024", "2025H1"]

/--
app.py `get_previous_year` (lines 194-205): the hard-coded predecessor
mapping, `None` for 2019 and for labels outside the mapping (`dict.get`).
-/
def get_previous_year (selectedYear : String) : Option String :=
  if selectedYear = "2025H1" then some "2024"
  else if selectedYear = "2024" then some "2023"
  else if selectedYear = "2023" then some "2022"
  else if selectedYear = "2022" then some "2021"
  else if selectedYear = "2021" then some "2020"
  else if selectedYear = "2020" then some "2019"
  else none

/--
pandas `Series.rank(method='min', ascending=False)` applied to the
Total_Mentions column: the rank of the value `t` is one more than the
number of rows whose Total_Mentions is strictly greater.
-/
def rankOf (df : List MentionRow) (t : Nat) : Nat :=
  1 + (df.filter (fun r => t < r.totalMentions)).length

/--
app.py line 139: `year_df['Rank'] = year_df['Total_Mentions'].rank(
method='min', ascending=False).astype(int)` — assign every row its
competition rank on the stored Total_Mentions column.
-/
def addRank (df : List MentionRow) : List MentionRow :=
  df.map (fun r => { r with rank := some (rankOf df r.totalMentions) })

/- pandas `Series.max()` over a category column, with the empty table
giving 0 (pandas gives NaN there; both fail the `> 1` test below, so the
observable leader behaviour is identical). -/
def maxCat (df : List MentionRow) (c : Category) : Nat :=
  df.foldl (fun m r => max m (getCat r c)) 0

/--
app.py `get_kpis` lines 234-241: the category-leader table for one
category — all rows achieving the maximum, provided that maximum exceeds
1, otherwise the empty DataFrame.
-/
def leadersFor (df : List MentionRow) (c : Category) : List MentionRow :=
  let m := maxCat df c
  if 1 < m then df.filter (fun r => getCat r c = m) else []

/- Insertion step of a descending stable sort on the Total_Mentions
column, modelling `df.sort_values('Total_Mentions', ascending=False)`.
(pandas uses an unspecified-order quicksort for ties; no property proved
here depends on the relative order of tied rows.) -/
def insertByTotal (r : MentionRow) : List MentionRow → List MentionRow
  | [] => [r]
  | x :: xs =>
    if x.totalMentions < r.totalMentions then r :: x :: xs
    else x :: insertByTotal r xs

def sortByTotalDesc (df : List MentionRow) : List MentionRow :=
  df.foldr insertByTotal []

/- The per-category leader tables of `get_kpis`, as an association list in
the fixed category order (the Python dict is insertion-ordered the same
way). -/
def KPILeaders := List (Category × List MentionRow)

/--
app.py `get_kpis` (lines 207-253). Returns
`(most_mentioned, prev_most_mentioned, category_leaders,
prev_category_leaders)`; all four are `None` when the selected year has no
mentions table. `.iloc[0]` on an empty table raises, modelled as
`Except.error`. The current year totals are recomputed through
`calculate_total_mentions` on a copy; the previous-year leader tables are
computed on the previous table as loaded (line 245, no copy, no recompute).
-/
def get_kpis (data : Data) (selectedYear : String) :
    Except String (Option MentionRow × Option MentionRow ×
                   Option KPILeaders × Option KPILeaders) :=
  let yearKey := "mentions_" ++ selectedYear
  let prevYearKey := (get_previous_year selectedYear).map (fun p => "mentions_" ++ p)
  match lookupMentions data yearKey with
  | none => .ok (none, none, none, none)
  | some df =>
    let currentDf := sortByTotalDesc (calculate_total_mentions df)
    match currentDf with
    | [] => .error "iloc[0] on empty DataFrame"
    | mostMentioned :: _ =>
      let prevTable : Option (List MentionRow) :=
        match prevYearKey with
        | none => none
        | some pk => lookupMentions data pk
      match prevTable with
      | none =>
        .ok (some mostMentioned, none,
             some (Category.all.map (fun c => (c, leadersFor currentDf c))),
             some [])
      | some prevDf =>
        match sortByTotalDesc (calculate_total_mentions prevDf) with
        | [] => .error "iloc[0] on empty DataFrame"
        | prevMost :: _ =>
          .ok (some mostMentioned, some prevMost,
               some (Category.all.map (fun c => (c, leadersFor currentDf c))),
               some (Category.all.map (fun c => (c, leadersFor prevDf c))))

/- ### Name normalization -/

/- `p` is a prefix of `l`, as a Boolean (Python `str.startswith` on the
remaining input, used by `str.replace` scanning). -/
def preB : List Char → List Char → Bool
  | [], _ => true
  | _ :: _, [] => false
  | a :: ps, b :: ls => a = b && preB ps ls

/- `p` is a prefix of `l`, as a proposition. -/
def pre (p l : List Char) : Prop := ∃ t, p ++ t = l

def bvlgariChars : List Char := ['B', 'v', 'l', 'g', 'a', 'r', 'i']
def bulgariChars : List Char := ['B', 'u', 'l', 'g', 'a', 'r', 'i']

/--
Python `str.replace('Bvlgari', 'Bulgari')` (all non-overlapping
occurrences, scanned left to right), written with a step-count so that it
is structurally recursive; `replaceBvl` supplies enough steps.
-/
def replaceBvlAux : Nat → List Char → List Char
  | _, [] => []
  | 0, l => l
  | n + 1, c :: cs =>
    if preB bvlgariChars (c :: cs) then
      bulgariChars ++ replaceBvlAux n (cs.drop 6)
    else
      c :: replaceBvlAux n cs

def replaceBvl (l : List Char) : List Char := replaceBvlAux l.length l

/--
The name normalizer:
`series.str.replace('Bvlgari', 'Bulgari', regex=False)` applied to one
name (app.py lines 124 and 138, generate_verified_mentions.py line 57,
compare_data.py lines 27-28).
-/
def normalizeName (s : String) : String := String.mk (replaceBvl s.data)

/- The pattern `p` occurs somewhere in `l` (as a contiguous substring). -/
def occursIn (p l : List Char) : Prop := ∃ i, pre p (l.drop i)

/- The non-empty proper suffixes of the pattern "Bvlgari". -/
def tailsOfBvl : List (List Char) :=
  [['v', 'l', 'g', 'a', 'r', 'i'], ['l', 'g', 'a', 'r', 'i'],
   ['g', 'a', 'r', 'i'], ['a', 'r', 'i'], ['r', 'i'], ['i']]

/- app.py lines 124/138: normalize the Maison column of one (copied)
year table before any lookup or ranking in `create_cross_year_ranking`. -/
def normalizeTable (df : List MentionRow) : List MentionRow :=
  df.map (fun r => { r with maison := normalizeName r.maison })

/- ### Whitespace stripping (Python str.strip) -/

/- Python `\s` / `str.strip` whitespace (ASCII part; the tables contain no
exotic whitespace). -/
def pyIsSpace (c : Char) : Bool :=
  c = ' ' || c = '\t' || c = '\n' || c = '\r' ||
  c = Char.ofNat 11 || c = Char.ofNat 12

/- Python `str.strip()`: drop whitespace from both ends. -/
def pyStripL (l : List Char) : List Char :=
  ((l.dropWhile pyIsSpace).reverse.dropWhile pyIsSpace).reverse

def stripString (s : String) : String := String.mk (pyStripL s.data)

/- Every character of `l` is whitespace. -/
def allWs (l : List Char) : Prop := ∀ c ∈ l, pyIsSpace c = true

/- No character of `l` is whitespace. -/
def noWs (l : List Char) : Prop := ∀ c ∈ l, pyIsSpace c = false

/- ### Cross-year ranking (app.py `create_cross_year_ranking`) -/

/-
One row of the cross-year ranking table: the Maison name plus, for each
year that has a mentions table, the `{year}_mentions` and `{year}_rank`
entries of the Python row dict (years without data are simply absent).
-/
structure CrossYearRow where
  maison : String
  mentionsCells : List (String × Nat)
  rankCells : List (String × Option Nat)
  deriving DecidableEq, Repr

/- app.py lines 107-112: the universe of Maisons — the set union of the
raw `Maison` column values over every loaded year (no normalization is
applied here). Modelled as the concatenation, deduplicated below. -/
def rawMaisonsAcc (data : Data) : List String :=
  yearsList.foldl
    (fun acc year =>
      match lookupMentions data ("mentions_" ++ year) with
      | some df => acc ++ df.map MentionRow.maison
      | none => acc)
    []

def allMaisonsList (data : Data) : List String := (rawMaisonsAcc data).dedup

/- Python string `<`: lexicographic comparison by code point. -/
def charsLt : List Char → List Char → Bool
  | [], [] => false
  | [], _ :: _ => true
  | _ :: _, [] => false
  | a :: as, b :: bs =>
    if a.val < b.val then true
    else if b.val < a.val then false
    else charsLt as bs

/- Python `sorted` on a set of strings: ascending lexicographic order. -/
def insertStr (s : String) : List String → List String
  | [] => [s]
  | x :: xs => if charsLt s.data x.data then s :: x :: xs else x :: insertStr s xs

def sortStrings (l : List String) : List String := l.foldr insertStr []

def sortedAllMaisons (data : Data) : List String :=
  sortStrings (allMaisonsList data)

/- app.py lines 120-131: the `{year}_mentions` cell for `maison` — the
stored Total_Mentions of the first row of the normalized year table whose
name matches, or 0 when no row matches. -/
def mentionCell (df : List MentionRow) (maison : String) : Nat :=
  match (normalizeTable df).filter (fun r => r.maison = maison) with
  | [] => 0
  | r :: _ => r.totalMentions

/- app.py lines 133-145: the `{year}_rank` cell for `maison` — the Rank
column of the first matching row after normalizing and ranking the year
table, or `None` when no row matches. -/
def rankCell (df : List MentionRow) (maison : String) : Option Nat :=
  match (addRank (normalizeTable df)).filter (fun r => r.maison = maison) with
  | [] => none
  | r :: _ => r.rank

/--
app.py `create_cross_year_ranking` (lines 102-149): one row per Maison of
the (raw-name) cross-year universe, sorted; each row collects the
per-year mentions cells and then the per-year rank cells, skipping years
whose mentions table is absent.
-/
def create_cross_year_ranking (data : Data) : List CrossYearRow :=
  (sortedAllMaisons data).map (fun maison =>
    { maison := maison
      mentionsCells :=
        yearsList.filterMap (fun year =>
          (lookupMentions data ("mentions_" ++ year)).map
            (fun df => (year, mentionCell df maison)))
      rankCells :=
        yearsList.filterMap (fun year =>
          (lookupMentions data ("mentions_" ++ year)).map
            (fun df => (year, rankCell df maison))) })

/- app.py lines 644-654: the set of unique Maisons offered for selection —
names of every loaded year after `.str.strip()` only (comment in source:
names "should already be standardized"), deduplicated and sorted. -/
def mainUniqueMaisons (data : Data) : List String :=
  sortStrings
    ((yearsList.foldl
        (fun acc year =>
          match lookupMentions data ("mentions_" ++ year) with
          | some df => acc ++ df.map (fun r => stripString r.maison)
          | none => acc)
        []).dedup)

/- ### Citation stripping and verified-count derivation -/

/--
`re.sub(r'【[^】]*】', '', text)` from
generate_standardized_verified.py `clean_citations`: remove every
bracketed citation token (an opening bracket, any characters other than a
closing bracket, then the closing bracket); an opening bracket with no
later closing bracket stays, as in the regex. Step-counted for structural
recursion; `stripCitations` supplies enough steps.
-/
def stripCitationsAux : Nat → List Char → List Char
  | _, [] => []
  | 0, l => l
  | n + 1, c :: cs =>
    if c = '【' then
      match cs.dropWhile (fun d => ¬ d = '】') with
      | [] => c :: stripCitationsAux n cs
      | _ :: rest => stripCitationsAux n rest
    else
      c :: stripCitationsAux n cs

def stripCitations (l : List Char) : List Char := stripCitationsAux l.length l

/- Map every whitespace character to a plain space (first half of
`re.sub(r'\s+', ' ', text)`). -/
def toSp (c : Char) : Char := if pyIsSpace c then ' ' else c

/- Collapse runs of spaces to a single space (second half of
`re.sub(r'\s+', ' ', text)`, after `toSp`). -/
def squeezeSp : List Char → List Char
  | [] => []
  | [c] => [c]
  | a :: b :: r =>
    if a = ' ' && b = ' ' then squeezeSp (b :: r)
    else a :: squeezeSp (b :: r)

/- `re.sub(r'\s+', ' ', text)`: every maximal whitespace run becomes one
space. -/
def collapseWs (l : List Char) : List Char := squeezeSp (l.map toSp)

/--
generate_standardized_verified.py `clean_citations` (lines 10-21) applied
to a string (the callers always pass `str(...)` values, so the
isna/isinstance guard never fires): remove citation tokens, collapse
whitespace runs, strip the ends, and return `None` when nothing is left.
-/
def cleanCitations (l : List Char) : Option (List Char) :=
  let text := pyStripL (collapseWs (stripCitations l))
  if text = [] then none else some text

def pyLower (l : List Char) : List Char := l.map Char.toLower

/--
The per-cell test of generate_standardized_verified.py
`count_activities_for_maison` (lines 32-38): the cell is non-null, its
raw string strips to something non-empty, and after `clean_citations` the
text is non-`None`, not `"0"`, and its lower-casing is not `"nan"` (nor
empty).
-/
def stdActivityCounted : Cell → Bool
  | .na => false
  | .str s =>
    if pyStripL s.data = [] then false
    else
      match cleanCitations (pyStripL s.data) with
      | none => false
      | some u =>
        ¬ u = ['0'] && ¬ pyLower u = ['n', 'a', 'n'] && ¬ pyLower u = []

/- Python `col.startswith(t)`. -/
def strStarts (col t : String) : Bool := preB t.data col.data

/--
generate_standardized_verified.py `count_activities_for_maison`
(lines 23-44), for one category: count the cells of every column whose
name starts with `{category}_` that pass the activity test.
-/
def count_activities_for_maison (row : DetailRow) (category : String) : Nat :=
  (row.cells.filter
    (fun p => strStarts p.1 (category ++ "_") && stdActivityCounted p.2)).length

/- The fixed column lists of generate_verified_mentions.py
`count_mentions_in_details` (lines 13-24). -/
def categoryColumns (category : String) : Option (List String) :=
  if category = "Product" then
    some ["Product_1", "Product_2", "Product_3", "Product_4", "Product_5"]
  else if category = "Place" then
    some ["Place_1", "Place_2", "Place_3", "Place_4", "Place_5"]
  else if category = "Partnership" then
    some ["Partnership_1", "Partnership_2", "Partnership_3"]
  else if category = "ESG" then some ["ESG_1", "ESG_2"]
  else if category = "Performance" then some ["Performance_1"]
  else if category = "Digital" then some ["Digital_1", "Digital_2"]
  else if category = "Pricing" then some ["Pricing_1"]
  else if category = "Promotion" then
    some ["Promotion_1", "Promotion_2", "Promotion_3", "Promotion_4"]
  else if category = "People" then some ["People_1"]
  else if category = "Awards" then some ["Awards_1"]
  else none

/- The per-cell test of generate_verified_mentions.py (line 35): the cell
is present, non-null, and its raw string strips to something non-empty —
no citation stripping and no "0"/"nan" exclusion. -/
def verActivityCounted : Option Cell → Bool
  | none => false
  | some .na => false
  | some (.str s) => ¬ pyStripL s.data = []

/--
generate_verified_mentions.py `count_mentions_in_details` (lines 9-38):
count, over the fixed column list of the category, the cells that are
present, non-null and strip to a non-empty string.
-/
def count_mentions_in_details (row : DetailRow) (category : String) : Nat :=
  match categoryColumns category with
  | none => 0
  | some cols =>
    (cols.filter (fun col => verActivityCounted (assocLookup row.cells col))).length

/--
Modelled from the words of the specification (section 4.3), for
comparison with the code derivers: an activity cell counts when it is
non-empty after trimming whitespace and stripping bracketed
citation-marker substrings, excluding the literal sentinel "0" and
case-insensitive "nan"; a null cell is not an activity.
-/
def specActivityCounted : Cell → Bool
  | .na => false
  | .str s =>
    let v := pyStripL (stripCitations s.data)
    ¬ v = [] && ¬ v = ['0'] && ¬ pyLower v = ['n', 'a', 'n']

/- ### File system model and load_data -/

/- The state of one file on disk: absent, present but unreadable by
`pd.read_excel` (raising), or present with a table of rows. -/
inductive FileState where
  | absent
  | malformed
  | good (t : Table)

def FS := String → FileState

/- `os.path.exists`. -/
def fileExists (fs : FS) (name : String) : Bool :=
  match fs name with
  | .absent => false
  | _ => true

def isGoodFile (fs : FS) (name : String) : Bool :=
  match fs name with
  | .good _ => true
  | _ => false

def isMalformedFile (fs : FS) (name : String) : Bool :=
  match fs name with
  | .malformed => true
  | _ => false

/- `pd.read_excel`: raises (models as `Except.error` carrying the file
name) unless the file is present and well-formed. -/
def readExcel (fs : FS) (name : String) : Except String Table :=
  match fs name with
  | .good t => .ok t
  | _ => .error name

/- The candidate file names of app.py lines 68-72. -/
def stdVerFile (year : String) : String :=
  if ¬ year = "2025H1" then
    "lvmh_" ++ year ++ "FY_maison_mentions_standardized_verified.xlsx"
  else "lvmh_" ++ year ++ "_maison_mentions_standardized_verified.xlsx"

def stdFile (year : String) : String :=
  if ¬ year = "2025H1" then
    "lvmh_" ++ year ++ "FY_maison_mentions_standardized.xlsx"
  else "lvmh_" ++ year ++ "_maison_mentions_standardized.xlsx"

def verFile (year : String) : String :=
  if ¬ year = "2025H1" then
    "lvmh_" ++ year ++ "FY_maison_mentions_verified.xlsx"
  else "lvmh_" ++ year ++ "_maison_mentions_verified.xlsx"

def origMentionsFile (year : String) : String :=
  if ¬ year = "2025H1" then "lvmh_" ++ year ++ "FY_maison_mentions.xlsx"
  else "lvmh_" ++ year ++ "_maison_mentions.xlsx"

def detailsStdFile (year : String) : String :=
  if ¬ year = "2025H1" then
    "lvmh_" ++ year ++ "FY_maison_details_standardized.xlsx"
  else "lvmh_" ++ year ++ "_maison_details_standardized.xlsx"

def origDetailsFile (year : String) : String :=
  if ¬ year = "2025H1" then "lvmh_" ++ year ++ "FY_maison_details.xlsx"
  else "lvmh_" ++ year ++ "_maison_details.xlsx"

/- app.py lines 74-83: resolve the mentions file by fallback priority. -/
def chooseMentionsFile (fs : FS) (year : String) : String :=
  if fileExists fs (stdVerFile year) then stdVerFile year
  else if fileExists fs (stdFile year) then stdFile year
  else if fileExists fs (verFile year) then verFile year
  else origMentionsFile year

/- The loop body of `load_data` for one year (app.py lines 65-91): load
the chosen mentions file if it exists, then the standardized details file
if it exists; a read failure propagates. -/
def loadYearStep (fs : FS) (acc : Data) (year : String) : Except String Data := do
  let mentionsFile := chooseMentionsFile fs year
  let acc₁ ←
    if fileExists fs mentionsFile then do
      let t ← readExcel fs mentionsFile
      pure (acc ++ [("mentions_" ++ year, t)])
    else pure acc
  if fileExists fs (detailsStdFile year) then do
    let t ← readExcel fs (detailsStdFile year)
    pure (acc₁ ++ [("details_" ++ year, t)])
  else pure acc₁

/--
app.py `load_data` (lines 58-93): for each year, pick the mentions file
by priority and load it if it exists, then load the standardized details
file if it exists. There is no exception handling, so a raising
`pd.read_excel` (a malformed file) propagates out of the whole load.
-/
def load_data (fs : FS) : Except String Data :=
  yearsList.foldlM (loadYearStep fs) []

/- The dict entries one year contributes when no consulted file is
malformed: a mentions entry when the chosen mentions file is good, a
details entry when the standardized details file is good. -/
def yearSpecEntries (fs : FS) (year : String) : Data :=
  (match fs (chooseMentionsFile fs year) with
   | .good t => [("mentions_" ++ year, t)]
   | _ => []) ++
  (match fs (detailsStdFile year) with
   | .good t => [("details_" ++ year, t)]
   | _ => [])

def loadYearSpec (fs : FS) (acc : Data) (year : String) : Data :=
  acc ++ yearSpecEntries fs year

/- The expected result of `load_data` when no consulted file is
malformed. -/
def loadDataSpec (fs : FS) : Data :=
  yearsList.foldl (loadYearSpec fs) []

def dataKeys (d : Data) : List String := d.map Prod.fst

/- ### The generator scripts (error locality model) -/

/- The year list shared by generate_verified_mentions.py and
generate_standardized_verified.py `main`. -/
def genYears : List String := ["2019", "2022", "2023", "2024", "2025H1"]

/- generate_verified_mentions.py lines 66-86: build one verified mentions
row from a (normalized) details row. -/
def buildVerifiedRow (row : DetailRow) : MentionRow :=
  let counts := fun c => count_mentions_in_details row c
  { maison := row.maison
    product := counts "Product", place := counts "Place"
    partnership := counts "Partnership", esg := counts "ESG"
    performance := counts "Performance", digital := counts "Digital"
    pricing := counts "Pricing", promotion := counts "Promotion"
    people := counts "People", awards := counts "Awards"
    totalMentions :=
      counts "Product" + counts "Place" + counts "Partnership" +
      counts "ESG" + counts "Performance" + counts "Digital" +
      counts "Pricing" + counts "Promotion" + counts "People" +
      counts "Awards" }

/--
generate_verified_mentions.py `generate_verified_mentions` (lines 40-106)
for one year: `None` when the details file is missing (early return),
an error when reading raises, otherwise the verified mentions table
(names normalized, counts derived, sorted by total descending).
-/
def generate_verified_mentions (fs : FS) (year : String) :
    Except String (Option (List MentionRow)) :=
  let detailsFile := origDetailsFile year
  if ¬ fileExists fs detailsFile then pure none
  else do
    let t ← readExcel fs detailsFile
    match t with
    | .details rows =>
      let rows := rows.map (fun r => { r with maison := normalizeName r.maison })
      pure (some (sortByTotalDesc (rows.map buildVerifiedRow)))
    | .mentions _ => .error detailsFile

/--
generate_verified_mentions.py `main` (lines 108-131): each year is
processed inside its own try/except, so one year raising leaves every
other year processed; `none` records a caught failure.
-/
def genVerifiedMain (fs : FS) : List (String × Option (Option (List MentionRow))) :=
  genYears.map (fun year => (year, (generate_verified_mentions fs year).toOption))

/- generate_standardized_verified.py lines 70-90: build one standardized
verified row from a details row (no name normalization here). -/
def buildStdVerifiedRow (row : DetailRow) : MentionRow :=
  let counts := fun c => count_activities_for_maison row c
  { maison := row.maison
    product := counts "Product", place := counts "Place"
    partnership := counts "Partnership", esg := counts "ESG"
    performance := counts "Performance", digital := counts "Digital"
    pricing := counts "Pricing", promotion := counts "Promotion"
    people := counts "People", awards := counts "Awards"
    totalMentions :=
      counts "Product" + counts "Place" + counts "Partnership" +
      counts "ESG" + counts "Performance" + counts "Digital" +
      counts "Pricing" + counts "Promotion" + counts "People" +
      counts "Awards" }

/--
generate_standardized_verified.py `generate_standardized_verified`
(lines 46-111) for one year: `None` when the standardized details file is
missing, an error when reading raises, otherwise the standardized
verified table sorted by total descending.
-/
def generate_standardized_verified (fs : FS) (year : String) :
    Except String (Option (List MentionRow)) :=
  let detailsFile := detailsStdFile year
  if ¬ fileExists fs detailsFile then pure none
  else do
    let t ← readExcel fs detailsFile
    match t with
    | .details rows =>
      pure (some (sortByTotalDesc (rows.map buildStdVerifiedRow)))
    | .mentions _ => .error detailsFile

/--
generate_standardized_verified.py `main` (lines 113-137): per-year
try/except, as in `genVerifiedMain`.
-/
def genStdVerifiedMain (fs : FS) :
    List (String × Option (Option (List MentionRow))) :=
  genYears.map (fun year => (year, (generate_standardized_verified fs year).toOption))

/- ### Concrete fixtures used by counterexamples and witnesses -/

/- A mentions row with the given Maison, Product count and stored
Total_Mentions column (all other categories 0). -/
def rowMT (m : String) (cat tot : Nat) : MentionRow :=
  { maison := m, product := cat, place := 0, partnership := 0, esg := 0,
    performance := 0, digital := 0, pricing := 0, promotion := 0,
    people := 0, awards := 0, totalMentions := tot }

/- Two loaded years, one spelling the entity "Bvlgari", the other
"Bulgari". -/
def dataBvl : Data :=
  [("mentions_2023", .mentions [rowMT "Bvlgari" 5 5]),
   ("mentions_2024", .mentions [rowMT "Bulgari" 7 7])]

/- One loaded year whose table stores a Total_Mentions of 99 next to
category counts summing to 10. -/
def rowStored99 : MentionRow := rowMT "Dior" 10 99

def dataStored99 : Data := [("mentions_2023", .mentions [rowStored99])]

/- One loaded year whose only row is spelled "Bvlgari". -/
def dataBvlOnly : Data := [("mentions_2023", .mentions [rowMT "Bvlgari" 5 5])]

/- The details row of the specification example in section 8. -/
def exDetailRow : DetailRow :=
  { maison := "Dior"
    cells := [("Product_1", .str "Launched X【879963710027701†L3310-L3314】"),
              ("Product_2", .str ""),
              ("Product_3", .str "0"),
              ("Product_4", .str "nan"),
              ("Product_5", .str "Opened store")] }

/- Four rows with stored totals 10, 10, 8, 7. -/
def dfRanks : List MentionRow :=
  [rowMT "A" 10 10, rowMT "B" 10 10, rowMT "C" 8 8, rowMT "D" 7 7]

/- A year table where two Maisons tie at the Product maximum of 2 and a
third has 1. -/
def dfLeaders : List MentionRow :=
  [rowMT "A" 2 2, rowMT "B" 2 2, rowMT "C" 1 1]

/- A row whose stored Total_Mentions (0) disagrees with its category
counts (5). -/
def rowUnsynced : MentionRow := rowMT "Dior" 5 0

/- A file system where the only 2023 mentions candidate raises on read
while the 2024 original mentions file is fine. -/
def fsBadYear : FS := fun n =>
  if n = "lvmh_2023FY_maison_mentions.xlsx" then .malformed
  else if n = "lvmh_2024FY_maison_mentions.xlsx" then
    .good (.mentions [rowMT "Dior" 3 3])
  else .absent

/- A file system with only the 2024 original mentions file, well-formed. -/
def fsOneGood : FS := fun n =>
  if n = "lvmh_2024FY_maison_mentions.xlsx" then
    .good (.mentions [rowMT "Dior" 3 3])
  else .absent

/- Two file systems that agree on the 2024 original details file but where
2023 is malformed in one and absent in the other. -/
def fsGenA : FS := fun n =>
  if n = "lvmh_2023FY_maison_details.xlsx" then .malformed
  else if n = "lvmh_2024FY_maison_details.xlsx" then .good (.details [exDetailRow])
  else .absent

def fsGenB : FS := fun n =>
  if n = "lvmh_2024FY_maison_details.xlsx" then .good (.details [exDetailRow])
  else .absent

/- ### Helper lemmas -/

theorem mem_insertByTotal {a r : MentionRow} {l : List MentionRow} :
    a ∈ insertByTotal r l ↔ a = r ∨ a ∈ l := by
  induction l with
  | nil => simp [insertByTotal]
  | cons x xs ih =>
    by_cases h : x.totalMentions < r.totalMentions
    · simp [insertByTotal, h, List.mem_cons]
    · simp only [insertByTotal, if_neg h, List.mem_cons, ih]
      tauto

theorem mem_sortByTotalDesc {a : MentionRow} {l : List MentionRow} :
    a ∈ sortByTotalDesc l ↔ a ∈ l := by
  induction l with
  | nil => simp [sortByTotalDesc]
  | cons x xs ih =>
    simp only [sortByTotalDesc, List.foldr_cons, mem_insertByTotal, List.mem_cons]
    rw [show xs.foldr insertByTotal [] = sortByTotalDesc xs from rfl, ih]

theorem addRank_rank_eq {df : List MentionRow} {r : MentionRow}
    (h : r ∈ addRank df) : r.rank = some (rankOf df r.totalMentions) := by
  rcases List.mem_map.1 h with ⟨x, _, rfl⟩
  rfl

theorem calculate_total_mentions_total {df : List MentionRow} {r : MentionRow}
    (h : r ∈ calculate_total_mentions df) : r.totalMentions = catSum r := by
  rcases List.mem_map.1 h with ⟨x, _, rfl⟩
  rfl

theorem maxCat_le_foldl (df : List MentionRow) (c : Category) :
    ∀ acc : Nat, acc ≤ df.foldl (fun m r => max m (getCat r c)) acc := by
  induction df with
  | nil => intro acc; simp
  | cons x xs ih =>
    intro acc
    calc acc ≤ max acc (getCat x c) := Nat.le_max_left _ _
      _ ≤ _ := ih _

theorem getCat_le_foldl (df : List MentionRow) (c : Category) (r : MentionRow) :
    ∀ acc : Nat, r ∈ df →
      getCat r c ≤ df.foldl (fun m x => max m (getCat x c)) acc := by
  induction df with
  | nil => intro acc h; cases h
  | cons x xs ih =>
    intro acc h
    rcases List.mem_cons.1 h with rfl | h
    · exact le_trans (Nat.le_max_right acc (getCat r c)) (maxCat_le_foldl xs c _)
    · exact ih _ h

theorem getCat_le_maxCat {df : List MentionRow} {r : MentionRow}
    (h : r ∈ df) (c : Category) : getCat r c ≤ maxCat df c :=
  getCat_le_foldl df c r 0 h

/- Splitting the strictly-greater count at the next distinct value: the
rows above `tNext` are the rows above `t` plus the rows at `t`, when no
row lies strictly between. -/
theorem filter_gt_split (df : List MentionRow) (t tNext : Nat) (hlt : tNext < t)
    (h : ∀ r ∈ df, ¬ (tNext < r.totalMentions ∧ r.totalMentions < t)) :
    (df.filter (fun r => tNext < r.totalMentions)).length =
      (df.filter (fun r => t < r.totalMentions)).length +
        (df.filter (fun r => r.totalMentions = t)).length := by
  induction df with
  | nil => simp
  | cons r df ih =>
    have hr := h r (List.mem_cons_self r df)
    have hdf := ih (fun x hx => h x (List.mem_cons_of_mem r hx))
    by_cases h1 : t < r.totalMentions
    · have h2 : tNext < r.totalMentions := Nat.lt_trans hlt h1
      have h3 : ¬ r.totalMentions = t := by omega
      simp [List.filter_cons, h1, h2, h3]
      omega
    · by_cases h2 : r.totalMentions = t
      · have h3 : tNext < r.totalMentions := by omega
        simp [List.filter_cons, h1, h2, h3, hlt]
        omega
      · have h3 : ¬ tNext < r.totalMentions := by
          intro hc
          exact hr ⟨hc, by omega⟩
        simp [List.filter_cons, h1, h2, h3]
        omega

theorem assocLookup_of_not_mem {α : Type} (ys : List String)
    (F : String → Option α) (y : String) (hy : y ∉ ys) :
    assocLookup (ys.filterMap (fun x => (F x).map (fun v => (x, v)))) y = none := by
  induction ys with
  | nil => rfl
  | cons x ys ih =>
    have hxy : ¬ x = y := fun hc => hy (hc ▸ List.mem_cons_self x ys)
    have hy2 : y ∉ ys := fun hc => hy (List.mem_cons_of_mem x hc)
    cases hFx : F x with
    | none => simpa [List.filterMap_cons, hFx] using ih hy2
    | some v => simpa [List.filterMap_cons, hFx, assocLookup, hxy] using ih hy2

theorem assocLookup_filterMap {α : Type} (ys : List String)
    (F : String → Option α) (y : String) (hnd : ys.Nodup) (hy : y ∈ ys) :
    assocLookup (ys.filterMap (fun x => (F x).map (fun v => (x, v)))) y = F y := by
  induction ys with
  | nil => cases hy
  | cons x ys ih =>
    have hnd2 := (List.nodup_cons.1 hnd).2
    have hxny := (List.nodup_cons.1 hnd).1
    rcases List.mem_cons.1 hy with rfl | hy2
    · cases hFx : F y with
      | none => simpa [List.filterMap_cons, hFx] using assocLookup_of_not_mem ys F y hxny
      | some v => simp [List.filterMap_cons, hFx, assocLookup]
    · have hxy : ¬ x = y := fun hc => hxny (hc ▸ hy2)
      cases hFx : F x with
      | none => simpa [List.filterMap_cons, hFx] using ih hnd2 hy2
      | some v => simpa [List.filterMap_cons, hFx, assocLookup, hxy] using ih hnd2 hy2

theorem yearsList_nodup : yearsList.Nodup := by decide

/- The shape of one row of the cross-year table. -/
theorem crossYear_row_shape {data : Data} {row : CrossYearRow}
    (h : row ∈ create_cross_year_ranking data) :
    row.mentionsCells =
      yearsList.filterMap (fun year =>
        (lookupMentions data ("mentions_" ++ year)).map
          (fun df => (year, mentionCell df row.maison))) ∧
    row.rankCells =
      yearsList.filterMap (fun year =>
        (lookupMentions data ("mentions_" ++ year)).map
          (fun df => (year, rankCell df row.maison))) := by
  rcases List.mem_map.1 h with ⟨m, _, rfl⟩
  exact ⟨rfl, rfl⟩

theorem crossYear_mentions_lookup {data : Data} {row : CrossYearRow}
    (h : row ∈ create_cross_year_ranking data) {year : String}
    (hy : year ∈ yearsList) :
    assocLookup row.mentionsCells year =
      (lookupMentions data ("mentions_" ++ year)).map
        (fun df => mentionCell df row.maison) := by
  rw [(crossYear_row_shape h).1]
  have := assocLookup_filterMap yearsList
    (fun x => (lookupMentions data ("mentions_" ++ x)).map
      (fun df => mentionCell df row.maison)) year yearsList_nodup hy
  simpa [Option.map_map, Function.comp] using this

theorem crossYear_rank_lookup {data : Data} {row : CrossYearRow}
    (h : row ∈ create_cross_year_ranking data) {year : String}
    (hy : year ∈ yearsList) :
    assocLookup row.rankCells year =
      (lookupMentions data ("mentions_" ++ year)).map
        (fun df => rankCell df row.maison) := by
  rw [(crossYear_row_shape h).2]
  have := assocLookup_filterMap yearsList
    (fun x => (lookupMentions data ("mentions_" ++ x)).map
      (fun df => rankCell df row.maison)) year yearsList_nodup hy
  simpa [Option.map_map, Function.comp] using this

/- ### Claim C4 — per-year competition ranking -/

/--
C4: `create_cross_year_ranking` assigns standard/competition ranks on
descending total mentions: (i) rows tied on Total_Mentions receive the
same rank; (ii) the rank of the next distinct value below a tie group
skips by the size of the group; (iii) four records with totals
[10, 10, 8, 7] receive ranks [1, 1, 3, 4]; (iv) the rank cell a Maison
receives for a year is determined by that year's table alone — two data
mappings holding the same table for a year produce identical rank cells,
whatever their other years contain.
-/
theorem c4_rank_within_year :
    (∀ (df : List MentionRow) (r₁ r₂ : MentionRow),
        r₁ ∈ addRank df → r₂ ∈ addRank df →
        r₁.totalMentions = r₂.totalMentions → r₁.rank = r₂.rank) ∧
    (∀ (df : List MentionRow) (t tNext : Nat), tNext < t →
        (∀ r ∈ df, ¬ (tNext < r.totalMentions ∧ r.totalMentions < t)) →
        rankOf df tNext =
          rankOf df t + (df.filter (fun r => r.totalMentions = t)).length) ∧
    ((addRank dfRanks).map MentionRow.rank = [some 1, some 1, some 3, some 4]) ∧
    (∀ (data₁ data₂ : Data) (year : String) (df : List MentionRow)
        (row₁ row₂ : CrossYearRow), year ∈ yearsList →
        lookupMentions data₁ ("mentions_" ++ year) = some df →
        lookupMentions data₂ ("mentions_" ++ year) = some df →
        row₁ ∈ create_cross_year_ranking data₁ →
        row₂ ∈ create_cross_year_ranking data₂ →
        row₁.maison = row₂.maison →
        assocLookup row₁.rankCells year = assocLookup row₂.rankCells year) := by
  refine ⟨?_, ?_, by decide, ?_⟩
  · intro df r₁ r₂ h₁ h₂ ht
    rw [addRank_rank_eq h₁, addRank_rank_eq h₂, ht]
  · intro df t tNext hlt h
    unfold rankOf
    rw [filter_gt_split df t tNext hlt h]
    omega
  · intro data₁ data₂ year df row₁ row₂ hy h₁ h₂ hr₁ hr₂ hm
    rw [crossYear_rank_lookup hr₁ hy, crossYear_rank_lookup hr₂ hy, h₁, h₂, hm]

/--
Witness for C4 at the concrete table with totals [10, 10, 8, 7]: the skip
step from the tie group at 10 down to 8 and the concrete rank list.
-/
theorem c4_rank_within_year_witness :
    rankOf dfRanks 8 =
      rankOf dfRanks 10 + (dfRanks.filter (fun r => r.totalMentions = 10)).length ∧
    (addRank dfRanks).map MentionRow.rank = [some 1, some 1, some 3, some 4] :=
  ⟨c4_rank_within_year.2.1 dfRanks 10 8 (by decide) (by decide),
   c4_rank_within_year.2.2.1⟩

/- ### Claim C5 — category leaders -/

/--
C5: the per-category leader computation of `get_kpis` returns, for any
year table and category, exactly the rows whose count equals the
maximum of that category when that maximum exceeds 1, and the empty
table whenever the maximum is 0 or 1; co-leaders tied at the maximum are
all returned together.
-/
theorem c5_category_leaders (df : List MentionRow) (c : Category) :
    (∀ r ∈ df, getCat r c ≤ maxCat df c) ∧
    (maxCat df c ≤ 1 → leadersFor df c = []) ∧
    (1 < maxCat df c →
      ∀ r, r ∈ leadersFor df c ↔ (r ∈ df ∧ getCat r c = maxCat df c)) := by
  refine ⟨fun r hr => getCat_le_maxCat hr c, ?_, ?_⟩
  · intro h
    unfold leadersFor
    rw [if_neg (by omega)]
  · intro h r
    unfold leadersFor
    rw [if_pos h]
    simp [List.mem_filter]

/--
Witness for C5: in a table where two Maisons tie at the Product maximum
of 2 and a third has 1, both tied rows are leaders; in a table whose
Product maximum is 1, there is no leader.
-/
theorem c5_category_leaders_witness :
    (rowMT "A" 2 2 ∈ leadersFor dfLeaders Category.product ∧
     rowMT "B" 2 2 ∈ leadersFor dfLeaders Category.product) ∧
    leadersFor [rowMT "C" 1 1] Category.product = [] :=
  ⟨⟨((c5_category_leaders dfLeaders Category.product).2.2 (by decide)
      (rowMT "A" 2 2)).mpr ⟨by decide, by decide⟩,
    ((c5_category_leaders dfLeaders Category.product).2.2 (by decide)
      (rowMT "B" 2 2)).mpr ⟨by decide, by decide⟩⟩,
   (c5_category_leaders [rowMT "C" 1 1] Category.product).2.1 (by decide)⟩

/- ### Claim C9 — in-place mutation of calculate_total_mentions -/

/--
C9 counterexample: `calculate_total_mentions` does not leave its argument
as it was. On a table whose stored Total_Mentions (0) differs from the
category sum (5), the post-call state of the argument (which the Python
function mutated in place and returned) differs from the pre-call table.
-/
theorem c9_counterexample :
    ¬ calculate_total_mentions [rowUnsynced] = [rowUnsynced] := by decide

/--
C9 amended: `calculate_total_mentions` writes the Total_Mentions column
in place on the very table it is given and returns that same table; the
argument after the call equals the pre-call table exactly when every row
already stored its category sum. (Callers in the repository pass
`.copy()` precisely to shield the loaded tables from this mutation.)
-/
theorem c9_amended_total_mentions_mutation (df : List MentionRow) :
    calculate_total_mentions df = df ↔ ∀ r ∈ df, r.totalMentions = catSum r := by
  induction df with
  | nil => simp [calculate_total_mentions]
  | cons r df ih =>
    simp only [calculate_total_mentions, List.map_cons, List.cons.injEq,
      List.mem_cons, forall_eq_or_imp]
    constructor
    · rintro ⟨h1, h2⟩
      exact ⟨(congrArg MentionRow.totalMentions h1).symm, ih.mp h2⟩
    · rintro ⟨h1, h2⟩
      refine ⟨?_, ih.mpr h2⟩
      cases r
      simp only [MentionRow.mk.injEq] at h1 ⊢
      simp_all [catSum]

/--
Witness for C9 amended: a table whose single row already stores its
category sum is left unchanged.
-/
theorem c9_amended_total_mentions_mutation_witness :
    calculate_total_mentions [rowMT "Dior" 5 5] = [rowMT "Dior" 5 5] :=
  (c9_amended_total_mentions_mutation [rowMT "Dior" 5 5]).mpr (by decide)

/- ### Claim C10 — get_kpis on an absent year -/

/--
C10: when the data mapping holds no mentions table for the selected year,
`get_kpis` returns `(None, None, None, None)` without raising (the
statement holds for every data mapping, so no other year's table can
influence the result), and on any non-raising call the first component is
`None` exactly when the selected year's mentions table is absent.
-/
theorem c10_get_kpis_absent (data : Data) (selectedYear : String) :
    (lookupMentions data ("mentions_" ++ selectedYear) = none →
      get_kpis data selectedYear = .ok (none, none, none, none)) ∧
    (∀ q, get_kpis data selectedYear = .ok q →
      (q.1 = none ↔ lookupMentions data ("mentions_" ++ selectedYear) = none)) := by
  cases h : lookupMentions data ("mentions_" ++ selectedYear) with
  | none =>
    refine ⟨fun _ => ?_, fun q hq => ?_⟩
    · simp only [get_kpis, h]
    · simp only [get_kpis, h, Except.ok.injEq] at hq
      subst hq
      simp
  | some df =>
    refine ⟨fun hc => Option.noConfusion hc, fun q hq => ?_⟩
    simp only [get_kpis, h] at hq
    split at hq
    · cases hq
    · split at hq
      · cases hq
        simp [h]
      · split at hq
        · cases hq
        · cases hq
          simp [h]

/--
Witness for C10: with only a 2024 table loaded, asking for 2023 returns
the all-None quadruple.
-/
theorem c10_get_kpis_absent_witness :
    get_kpis [("mentions_2024", Table.mentions [rowMT "Dior" 3 3])] "2023" =
      .ok (none, none, none, none) :=
  (c10_get_kpis_absent [("mentions_2024", Table.mentions [rowMT "Dior" 3 3])]
    "2023").1 (by decide)

/- ### Cross-year helper lemmas -/

theorem insertStr_perm (s : String) (l : List String) :
    List.Perm (insertStr s l) (s :: l) := by
  induction l with
  | nil => exact List.Perm.refl _
  | cons x xs ih =>
    by_cases h : charsLt s.data x.data
    · simp only [insertStr, if_pos h]
      exact List.Perm.refl _
    · simp only [insertStr, if_neg h]
      exact (ih.cons x).trans (List.Perm.swap s x xs)

theorem sortStrings_perm (l : List String) : List.Perm (sortStrings l) l := by
  induction l with
  | nil => exact List.Perm.refl _
  | cons x xs ih =>
    simp only [sortStrings, List.foldr_cons]
    exact (insertStr_perm x (xs.foldr insertStr [])).trans (ih.cons x)

theorem mem_sortStrings {m : String} {l : List String} :
    m ∈ sortStrings l ↔ m ∈ l :=
  (sortStrings_perm l).mem_iff

theorem nodup_sortStrings {l : List String} (h : l.Nodup) :
    (sortStrings l).Nodup := ((sortStrings_perm l).nodup_iff).2 h

/- Membership in the year-by-year accumulation of projected Maison
names. -/
theorem mem_maisonsFold (data : Data) (f : MentionRow → String)
    (ys : List String) (acc : List String) (m : String) :
    (m ∈ ys.foldl
        (fun acc year =>
          match lookupMentions data ("mentions_" ++ year) with
          | some df => acc ++ df.map f
          | none => acc)
        acc) ↔
      m ∈ acc ∨ ∃ y ∈ ys, ∃ df,
        lookupMentions data ("mentions_" ++ y) = some df ∧ m ∈ df.map f := by
  induction ys generalizing acc with
  | nil => simp
  | cons y ys ih =>
    simp only [List.foldl_cons]
    cases hy : lookupMentions data ("mentions_" ++ y) with
    | none =>
      rw [ih]
      simp [List.exists_mem_cons_iff, hy]
    | some df =>
      rw [ih]
      simp only [List.mem_append, List.exists_mem_cons_iff, hy]
      constructor
      · rintro (⟨h | h⟩ | h)
        · exact Or.inl h
        · exact Or.inr (Or.inl ⟨df, rfl, h⟩)
        · exact Or.inr (Or.inr h)
      · rintro (h | ⟨df2, hdf2, h⟩ | h)
        · exact Or.inl (Or.inl h)
        · cases hdf2
          exact Or.inl (Or.inr h)
        · exact Or.inr h

theorem mem_sortedAllMaisons {data : Data} {m : String} :
    m ∈ sortedAllMaisons data ↔
      ∃ y ∈ yearsList, ∃ df,
        lookupMentions data ("mentions_" ++ y) = some df ∧
          m ∈ df.map MentionRow.maison := by
  rw [sortedAllMaisons, mem_sortStrings, allMaisonsList, List.mem_dedup]
  simpa using mem_maisonsFold data MentionRow.maison yearsList [] m

theorem mem_mainUniqueMaisons {data : Data} {m : String} :
    m ∈ mainUniqueMaisons data ↔
      ∃ y ∈ yearsList, ∃ df,
        lookupMentions data ("mentions_" ++ y) = some df ∧
          m ∈ df.map (fun r => stripString r.maison) := by
  rw [mainUniqueMaisons, mem_sortStrings, List.mem_dedup]
  simpa using mem_maisonsFold data (fun r => stripString r.maison) yearsList [] m

theorem crossYear_maisons (data : Data) :
    (create_cross_year_ranking data).map CrossYearRow.maison =
      sortedAllMaisons data := by
  unfold create_cross_year_ranking
  rw [List.map_map]
  exact List.map_id _

theorem crossYear_maisons_nodup (data : Data) :
    ((create_cross_year_ranking data).map CrossYearRow.maison).Nodup := by
  rw [crossYear_maisons]
  exact nodup_sortStrings (List.nodup_dedup _)

theorem addRank_maisons (df : List MentionRow) :
    (addRank df).map MentionRow.maison = df.map MentionRow.maison := by
  unfold addRank
  rw [List.map_map]
  rfl

theorem mentionCell_of_not_mem {df : List MentionRow} {m : String}
    (h : m ∉ (normalizeTable df).map MentionRow.maison) :
    mentionCell df m = 0 := by
  unfold mentionCell
  have : (normalizeTable df).filter (fun r => r.maison = m) = [] := by
    rw [List.filter_eq_nil_iff]
    intro r hr hc
    exact h (List.mem_map.2 ⟨r, hr, by simpa using hc⟩)
  rw [this]

theorem rankCell_of_not_mem {df : List MentionRow} {m : String}
    (h : m ∉ (normalizeTable df).map MentionRow.maison) :
    rankCell df m = none := by
  unfold rankCell
  have : (addRank (normalizeTable df)).filter (fun r => r.maison = m) = [] := by
    rw [List.filter_eq_nil_iff]
    intro r hr hc
    have hm : r.maison ∈ (addRank (normalizeTable df)).map MentionRow.maison :=
      List.mem_map.2 ⟨r, hr, rfl⟩
    rw [addRank_maisons] at hm
    have hcm : r.maison = m := by simpa using hc
    exact h (hcm ▸ hm)
  rw [this]

theorem mentionCell_of_filter {df : List MentionRow} {m : String}
    {r : MentionRow} {rest : List MentionRow}
    (h : (normalizeTable df).filter (fun x => x.maison = m) = r :: rest) :
    mentionCell df m = r.totalMentions := by
  unfold mentionCell
  rw [h]

theorem addRank_filter (df : List MentionRow) (m : String) :
    (addRank df).filter (fun x => x.maison = m) =
      (df.filter (fun x => x.maison = m)).map
        (fun r => { r with rank := some (rankOf df r.totalMentions) }) := by
  unfold addRank
  rw [List.filter_map]
  rfl

theorem rankCell_of_filter {df : List MentionRow} {m : String}
    {r : MentionRow} {rest : List MentionRow}
    (h : (normalizeTable df).filter (fun x => x.maison = m) = r :: rest) :
    rankCell df m = some (rankOf (normalizeTable df) r.totalMentions) := by
  unfold rankCell
  rw [addRank_filter, h]
  rfl

/- ### Claim C1 — where normalization is (and is not) applied -/

/--
C1 counterexample: an entity spelled "Bvlgari" in 2023 and "Bulgari" in
2024 contributes two entries, not one, to the cross-year ranking universe
and two entries to the unique-Maison selection set, although
normalization identifies the two spellings.
-/
theorem c1_counterexample :
    sortedAllMaisons dataBvl = ["Bulgari", "Bvlgari"] ∧
    mainUniqueMaisons dataBvl = ["Bulgari", "Bvlgari"] ∧
    normalizeName "Bvlgari" = normalizeName "Bulgari" := by decide

/--
C1 amended: inside `create_cross_year_ranking` the "Bvlgari" → "Bulgari"
normalization is applied to each year table before the per-year cell
lookup and ranking (`mentionCell`/`rankCell` work on `normalizeTable`),
but the universe of Maisons for the cross-year table is built from the
raw `Maison` values of every loaded year, and the unique-Maison selection
set of `main` is built from merely whitespace-stripped values; so an
entity spelled "Bvlgari" in one year and "Bulgari" in another contributes
two entries to both cross-year structures.
-/
theorem c1_amended_normalization_sites (data : Data) :
    (∀ m, m ∈ sortedAllMaisons data ↔
      ∃ y ∈ yearsList, ∃ df,
        lookupMentions data ("mentions_" ++ y) = some df ∧
          m ∈ df.map MentionRow.maison) ∧
    (∀ m, m ∈ mainUniqueMaisons data ↔
      ∃ y ∈ yearsList, ∃ df,
        lookupMentions data ("mentions_" ++ y) = some df ∧
          m ∈ df.map (fun r => stripString r.maison)) ∧
    (∀ row ∈ create_cross_year_ranking data, ∀ year ∈ yearsList, ∀ df,
      lookupMentions data ("mentions_" ++ year) = some df →
        assocLookup row.mentionsCells year = some (mentionCell df row.maison) ∧
        assocLookup row.rankCells year = some (rankCell df row.maison)) := by
  refine ⟨fun m => mem_sortedAllMaisons, fun m => mem_mainUniqueMaisons,
    fun row hrow year hy df hdf => ?_⟩
  rw [crossYear_mentions_lookup hrow hy, crossYear_rank_lookup hrow hy, hdf]
  exact ⟨rfl, rfl⟩

/--
Witness for C1 amended, at the two-spelling data set: both raw spellings
are in the universe and in the selection set, and the 2023 cell of the
"Bvlgari" row is computed by `mentionCell` on the 2023 table.
-/
theorem c1_amended_normalization_sites_witness :
    "Bvlgari" ∈ sortedAllMaisons dataBvl ∧
    "Bvlgari" ∈ mainUniqueMaisons dataBvl := by
  have h := c1_amended_normalization_sites dataBvl
  refine ⟨(h.1 "Bvlgari").mpr ?_, (h.2.1 "Bvlgari").mpr ?_⟩
  · exact ⟨"2023", by decide, [rowMT "Bvlgari" 5 5], by decide, by decide⟩
  · exact ⟨"2023", by decide, [rowMT "Bvlgari" 5 5], by decide, by decide⟩

/- ### Claim C2 — totals: recomputed vs trusted from the input -/

/--
C2 counterexample: a loaded table storing Total_Mentions 99 next to
category counts summing to 10 flows into the cross-year ranking table
with the stored 99, not the recomputed 10 — `create_cross_year_ranking`
does read the input value as trusted.
-/
theorem c2_counterexample :
    create_cross_year_ranking dataStored99 =
      [{ maison := "Dior", mentionsCells := [("2023", 99)],
         rankCells := [("2023", some 1)] }] ∧
    catSum rowStored99 = 10 := by decide

/--
C2 amended: `calculate_total_mentions` establishes
`Total_Mentions = sum of the ten category counts` for every row of its
result, and the totals consumed by `get_kpis` (its most-mentioned row)
are recomputed through it; but `create_cross_year_ranking` takes the
Total_Mentions cell of the first matching row of the loaded table as-is,
without recomputation.
-/
theorem c2_amended_total_recompute :
    (∀ df : List MentionRow, ∀ r ∈ calculate_total_mentions df,
        r.totalMentions = catSum r) ∧
    (∀ (data : Data) (year : String) q (r : MentionRow),
        get_kpis data year = .ok q → q.1 = some r →
        r.totalMentions = catSum r) ∧
    (∀ (data : Data) (year : String) (df : List MentionRow)
        (r : MentionRow) (rest : List MentionRow) (row : CrossYearRow),
        year ∈ yearsList →
        lookupMentions data ("mentions_" ++ year) = some df →
        row ∈ create_cross_year_ranking data →
        (normalizeTable df).filter (fun x => x.maison = row.maison) = r :: rest →
        assocLookup row.mentionsCells year = some r.totalMentions) := by
  refine ⟨fun df r hr => calculate_total_mentions_total hr, ?_, ?_⟩
  · intro data year q r hq hr
    cases h : lookupMentions data ("mentions_" ++ year) with
    | none =>
      simp only [get_kpis, h, Except.ok.injEq] at hq
      subst hq
      cases hr
    | some df =>
      simp only [get_kpis, h] at hq
      split at hq
      · cases hq
      · rename_i most rest heq
        have hfin : r ∈ sortByTotalDesc (calculate_total_mentions df) := by
          have hmr : most = r := by
            split at hq
            · cases hq
              simpa using hr
            · split at hq
              · cases hq
              · cases hq
                simpa using hr
          rw [heq, ← hmr]
          exact List.mem_cons_self _ _
        exact calculate_total_mentions_total (mem_sortByTotalDesc.1 hfin)
  · intro data year df r rest row hy hdf hrow hfil
    rw [crossYear_mentions_lookup hrow hy, hdf]
    rw [Option.map_some', mentionCell_of_filter hfil]

/--
Witness for C2 amended: at the concrete stored-99 table, the recomputed
table satisfies the invariant, and the cross-year cell equals the stored
total of the first match.
-/
theorem c2_amended_total_recompute_witness :
    (∀ r ∈ calculate_total_mentions [rowStored99], r.totalMentions = catSum r) ∧
    assocLookup
        ({ maison := "Dior", mentionsCells := [("2023", 99)],
           rankCells := [("2023", some 1)] } : CrossYearRow).mentionsCells
        "2023" =
      some rowStored99.totalMentions :=
  ⟨c2_amended_total_recompute.1 [rowStored99],
   c2_amended_total_recompute.2.2 dataStored99 "2023" [rowStored99]
     rowStored99 []
     ({ maison := "Dior", mentionsCells := [("2023", 99)],
        rankCells := [("2023", some 1)] })
     (by decide) (by decide) (by decide) (by decide)⟩

/- ### Claim C6 — cross-year table membership and cell values -/

/--
C6 counterexample: a Maison spelled "Bvlgari" appears in the loaded 2023
mention records, yet its cross-year row carries `(0, None)` for 2023
rather than its `(total, rank)` — because the cell lookup runs against
the normalized table while the universe kept the raw spelling.
-/
theorem c6_counterexample :
    lookupMentions dataBvlOnly "mentions_2023" = some [rowMT "Bvlgari" 5 5] ∧
    create_cross_year_ranking dataBvlOnly =
      [{ maison := "Bvlgari", mentionsCells := [("2023", 0)],
         rankCells := [("2023", none)] }] := by decide

/--
C6 amended: the cross-year table has exactly one row (no duplicates) for
every raw Maison name appearing in any loaded year; a year with no
mentions table contributes no cell to any row; and for each loaded year a
row carries the stored total and the min-method rank of the first row of
the *normalized* year table matching the raw name, or `(0, None)` when
the name does not occur in the normalized table.
-/
theorem c6_amended_cross_year_table (data : Data) :
    ((create_cross_year_ranking data).map CrossYearRow.maison).Nodup ∧
    (∀ m, m ∈ (create_cross_year_ranking data).map CrossYearRow.maison ↔
      ∃ y ∈ yearsList, ∃ df,
        lookupMentions data ("mentions_" ++ y) = some df ∧
          m ∈ df.map MentionRow.maison) ∧
    (∀ row ∈ create_cross_year_ranking data, ∀ year ∈ yearsList,
      (lookupMentions data ("mentions_" ++ year) = none →
        assocLookup row.mentionsCells year = none ∧
        assocLookup row.rankCells year = none) ∧
      (∀ df, lookupMentions data ("mentions_" ++ year) = some df →
        (row.maison ∉ (normalizeTable df).map MentionRow.maison →
          assocLookup row.mentionsCells year = some 0 ∧
          assocLookup row.rankCells year = some none) ∧
        (∀ (r : MentionRow) (rest : List MentionRow),
          (normalizeTable df).filter (fun x => x.maison = row.maison) =
              r :: rest →
          assocLookup row.mentionsCells year = some r.totalMentions ∧
          assocLookup row.rankCells year =
            some (some (rankOf (normalizeTable df) r.totalMentions))))) := by
  refine ⟨crossYear_maisons_nodup data, ?_, fun row hrow year hy => ⟨?_, ?_⟩⟩
  · intro m
    rw [crossYear_maisons]
    exact mem_sortedAllMaisons
  · intro hnone
    rw [crossYear_mentions_lookup hrow hy, crossYear_rank_lookup hrow hy, hnone]
    exact ⟨rfl, rfl⟩
  · intro df hdf
    rw [crossYear_mentions_lookup hrow hy, crossYear_rank_lookup hrow hy, hdf]
    refine ⟨fun hnm => ?_, fun r rest hfil => ?_⟩
    · rw [Option.map_some', Option.map_some', mentionCell_of_not_mem hnm,
        rankCell_of_not_mem hnm]
      exact ⟨rfl, rfl⟩
    · rw [Option.map_some', Option.map_some', mentionCell_of_filter hfil,
        rankCell_of_filter hfil]
      exact ⟨rfl, rfl⟩

/--
Witness for C6 amended, on the two-spelling data set: the rows are
exactly the two raw names, "Bulgari" is in the table because it appears
raw in 2024, and the "Bulgari" row carries the stored total 5 and rank 1
for 2023 (the year that spelled it "Bvlgari").
-/
theorem c6_amended_cross_year_table_witness :
    ((create_cross_year_ranking dataBvl).map CrossYearRow.maison).Nodup ∧
    "Bulgari" ∈ (create_cross_year_ranking dataBvl).map CrossYearRow.maison ∧
    assocLookup
        ({ maison := "Bulgari", mentionsCells := [("2023", 5), ("2024", 7)],
           rankCells := [("2023", some 1), ("2024", some 1)] } :
          CrossYearRow).mentionsCells "2023" =
      some (rowMT "Bulgari" 5 5).totalMentions := by
  have h := c6_amended_cross_year_table dataBvl
  refine ⟨h.1, (h.2.1 "Bulgari").mpr
    ⟨"2024", by decide, [rowMT "Bulgari" 7 7], by decide, by decide⟩, ?_⟩
  exact (((h.2.2
      ({ maison := "Bulgari", mentionsCells := [("2023", 5), ("2024", 7)],
         rankCells := [("2023", some 1), ("2024", some 1)] })
      (by decide) "2023" (by decide)).2 [rowMT "Bvlgari" 5 5] (by decide)).2
      (rowMT "Bulgari" 5 5) [] (by decide)).1

/- ### Loader helper lemmas -/

theorem string_append_cancel {a y z : String} (h : a ++ y = a ++ z) : y = z := by
  have hd : a.data ++ y.data = a.data ++ z.data := congrArg String.data h
  have hyz := List.append_cancel_left hd
  cases y with
  | mk ly =>
    cases z with
    | mk lz =>
      simp only at hyz
      rw [hyz]

theorem mentions_key_ne_details_key (y z : String) :
    ¬ ("mentions_" ++ y = "details_" ++ z) := by
  intro h
  have hd := congrArg String.data h
  have e1 : ("mentions_" ++ y).data =
      'm' :: 'e' :: 'n' :: 't' :: 'i' :: 'o' :: 'n' :: 's' :: '_' :: y.data := rfl
  have e2 : ("details_" ++ z).data =
      'd' :: 'e' :: 't' :: 'a' :: 'i' :: 'l' :: 's' :: '_' :: z.data := rfl
  rw [e1, e2] at hd
  injection hd with hc _
  exact absurd hc (by decide)

/- The one-year load step succeeds and produces the expected entries when
neither consulted file is malformed. -/
theorem loadYearStep_ok (fs : FS) (acc : Data) (year : String)
    (h1 : isMalformedFile fs (chooseMentionsFile fs year) = false)
    (h2 : isMalformedFile fs (detailsStdFile year) = false) :
    loadYearStep fs acc year = .ok (loadYearSpec fs acc year) := by
  cases hm : fs (chooseMentionsFile fs year) with
  | malformed => rw [isMalformedFile, hm] at h1; cases h1
  | absent =>
    cases hd : fs (detailsStdFile year) with
    | malformed => rw [isMalformedFile, hd] at h2; cases h2
    | absent =>
      simp [loadYearStep, loadYearSpec, yearSpecEntries, fileExists,
        readExcel, hm, hd, Bind.bind, Except.bind, pure, Except.pure]
    | good t =>
      simp [loadYearStep, loadYearSpec, yearSpecEntries, fileExists,
        readExcel, hm, hd, Bind.bind, Except.bind, pure, Except.pure]
  | good t =>
    cases hd : fs (detailsStdFile year) with
    | malformed => rw [isMalformedFile, hd] at h2; cases h2
    | absent =>
      simp [loadYearStep, loadYearSpec, yearSpecEntries, fileExists,
        readExcel, hm, hd, Bind.bind, Except.bind, pure, Except.pure]
    | good t2 =>
      simp [loadYearStep, loadYearSpec, yearSpecEntries, fileExists,
        readExcel, hm, hd, Bind.bind, Except.bind, pure, Except.pure]

theorem foldlM_loadYearStep (fs : FS) (ys : List String)
    (h : ∀ y ∈ ys, isMalformedFile fs (chooseMentionsFile fs y) = false ∧
        isMalformedFile fs (detailsStdFile y) = false) :
    ∀ acc : Data,
      List.foldlM (loadYearStep fs) acc ys =
        .ok (List.foldl (loadYearSpec fs) acc ys) := by
  induction ys with
  | nil => intro acc; rfl
  | cons y ys ih =>
    intro acc
    have hy := h y (List.mem_cons_self y ys)
    rw [List.foldlM_cons, loadYearStep_ok fs acc y hy.1 hy.2]
    exact ih (fun x hx => h x (List.mem_cons_of_mem y hx)) _

/- Membership in the keys accumulated by the load fold. -/
theorem mem_dataKeys_fold (fs : FS) (k : String) (ys : List String) :
    ∀ acc : Data,
      (k ∈ dataKeys (ys.foldl (loadYearSpec fs) acc) ↔
        k ∈ dataKeys acc ∨ ∃ y ∈ ys, k ∈ dataKeys (yearSpecEntries fs y)) := by
  induction ys with
  | nil => intro acc; simp
  | cons y ys ih =>
    intro acc
    rw [List.foldl_cons, ih]
    simp only [loadYearSpec, dataKeys, List.map_append, List.mem_append,
      List.exists_mem_cons_iff]
    tauto

theorem mem_yearSpecEntries_keys {fs : FS} {k : String} {y : String} :
    k ∈ dataKeys (yearSpecEntries fs y) ↔
      (k = "mentions_" ++ y ∧ isGoodFile fs (chooseMentionsFile fs y) = true) ∨
      (k = "details_" ++ y ∧ isGoodFile fs (detailsStdFile y) = true) := by
  unfold yearSpecEntries dataKeys isGoodFile
  cases hm : fs (chooseMentionsFile fs y) <;>
    cases hd : fs (detailsStdFile y) <;> simp

/- The mentions key of a year is present in the expected load result
exactly when the chosen mentions file for that year is good. -/
theorem mentions_key_mem_loadDataSpec (fs : FS) (y : String)
    (hy : y ∈ yearsList) :
    (("mentions_" ++ y) ∈ dataKeys (loadDataSpec fs) ↔
      isGoodFile fs (chooseMentionsFile fs y) = true) := by
  rw [loadDataSpec, mem_dataKeys_fold]
  simp only [dataKeys, List.map_nil, List.not_mem_nil, false_or]
  constructor
  · rintro ⟨y2, hy2, hk⟩
    rcases mem_yearSpecEntries_keys.1 hk with ⟨heq, hgood⟩ | ⟨heq, _⟩
    · cases string_append_cancel heq
      exact hgood
    · exact absurd heq (mentions_key_ne_details_key y y2)
  · intro hgood
    exact ⟨y, hy, mem_yearSpecEntries_keys.2 (Or.inl ⟨rfl, hgood⟩)⟩

/- The per-year generator reads only the details file of its own year. -/
theorem generate_verified_local {fs₁ fs₂ : FS} {y : String}
    (h : fs₁ (origDetailsFile y) = fs₂ (origDetailsFile y)) :
    generate_verified_mentions fs₁ y = generate_verified_mentions fs₂ y := by
  simp only [generate_verified_mentions, fileExists, readExcel]
  rw [h]

theorem generate_std_verified_local {fs₁ fs₂ : FS} {y : String}
    (h : fs₁ (detailsStdFile y) = fs₂ (detailsStdFile y)) :
    generate_standardized_verified fs₁ y = generate_standardized_verified fs₂ y := by
  simp only [generate_standardized_verified, fileExists, readExcel]
  rw [h]

theorem assocLookup_map_congr {α : Type} (ys : List String)
    (g₁ g₂ : String → α) (y : String) (h : g₁ y = g₂ y) :
    assocLookup (ys.map (fun x => (x, g₁ x))) y =
      assocLookup (ys.map (fun x => (x, g₂ x))) y := by
  induction ys with
  | nil => rfl
  | cons x ys ih =>
    by_cases hxy : x = y
    · subst hxy
      simp [assocLookup, h]
    · simp [assocLookup, hxy, ih]

/- ### Claim C8 — failure locality -/

/--
C8 counterexample: `load_data` has no per-year exception handling — with
the only 2023 candidate file present but unreadable and a well-formed
2024 file on disk, the whole load raises and 2024 is not loaded either,
so a failing year does prevent the remaining years from being analyzed.
-/
theorem c8_counterexample :
    load_data fsBadYear = Except.error "lvmh_2023FY_maison_mentions.xlsx" ∧
    fsBadYear "lvmh_2024FY_maison_mentions.xlsx" =
      .good (.mentions [rowMT "Dior" 3 3]) :=
  ⟨rfl, rfl⟩

/--
C8 amended: a missing file only omits its year — when no consulted file
is malformed, `load_data` succeeds and a year's mentions entry is present
exactly when its chosen file is good; and in the generator scripts
(whose mains wrap each year in try/except) each year's outcome depends
only on that year's details file, so a failure there is local to its
year. In app.py's `load_data`, however, a malformed file aborts the whole
load (see the counterexample).
-/
theorem c8_amended_failure_locality :
    (∀ fs : FS,
      (∀ y ∈ yearsList,
        isMalformedFile fs (chooseMentionsFile fs y) = false ∧
        isMalformedFile fs (detailsStdFile y) = false) →
      load_data fs = .ok (loadDataSpec fs)) ∧
    (∀ (fs : FS) (y : String), y ∈ yearsList →
      (("mentions_" ++ y) ∈ dataKeys (loadDataSpec fs) ↔
        isGoodFile fs (chooseMentionsFile fs y) = true)) ∧
    (∀ (fs₁ fs₂ : FS) (y : String),
      fs₁ (origDetailsFile y) = fs₂ (origDetailsFile y) →
      generate_verified_mentions fs₁ y = generate_verified_mentions fs₂ y ∧
      assocLookup (genVerifiedMain fs₁) y = assocLookup (genVerifiedMain fs₂) y) ∧
    (∀ (fs₁ fs₂ : FS) (y : String),
      fs₁ (detailsStdFile y) = fs₂ (detailsStdFile y) →
      generate_standardized_verified fs₁ y =
        generate_standardized_verified fs₂ y ∧
      assocLookup (genStdVerifiedMain fs₁) y =
        assocLookup (genStdVerifiedMain fs₂) y) := by
  refine ⟨fun fs h => foldlM_loadYearStep fs yearsList h [],
    mentions_key_mem_loadDataSpec, fun fs₁ fs₂ y h => ⟨generate_verified_local h, ?_⟩,
    fun fs₁ fs₂ y h => ⟨generate_std_verified_local h, ?_⟩⟩
  · exact assocLookup_map_congr genYears _ _ y
      (by rw [generate_verified_local h])
  · exact assocLookup_map_congr genYears _ _ y
      (by rw [generate_std_verified_local h])

/--
Witness for C8 amended: a file system with only a good 2024 original
mentions file loads successfully with exactly that year present, and the
two generator file systems that agree on the 2024 details file (but
differ on a malformed 2023) give the same 2024 outcome.
-/
theorem c8_amended_failure_locality_witness :
    load_data fsOneGood = .ok (loadDataSpec fsOneGood) ∧
    ("mentions_2024" ∈ dataKeys (loadDataSpec fsOneGood) ↔
      isGoodFile fsOneGood (chooseMentionsFile fsOneGood "2024") = true) ∧
    assocLookup (genVerifiedMain fsGenA) "2024" =
      assocLookup (genVerifiedMain fsGenB) "2024" :=
  ⟨c8_amended_failure_locality.1 fsOneGood (by decide),
   c8_amended_failure_locality.2.1 fsOneGood "2024" (by decide),
   (c8_amended_failure_locality.2.2.1 fsGenA fsGenB "2024" rfl).2⟩

/- ### Normalizer helper lemmas (claim C7) -/

theorem pre_nil (l : List Char) : pre [] l := ⟨l, rfl⟩

theorem pre_cons {a b : Char} {p l : List Char} :
    pre (a :: p) (b :: l) ↔ a = b ∧ pre p l := by
  constructor
  · rintro ⟨u, hu⟩
    rw [List.cons_append] at hu
    injection hu with h1 h2
    exact ⟨h1, u, h2⟩
  · rintro ⟨rfl, u, hu⟩
    exact ⟨u, by rw [List.cons_append, hu]⟩

theorem pre_length {p l : List Char} (h : pre p l) : p.length ≤ l.length := by
  rcases h with ⟨u, rfl⟩
  simp

theorem pre_take {p l : List Char} (h : pre p l) : l.take p.length = p := by
  rcases h with ⟨u, rfl⟩
  simp [List.take_append_eq_append_take]

theorem preB_iff {p l : List Char} : preB p l = true ↔ pre p l := by
  induction p generalizing l with
  | nil => simp [preB, pre_nil]
  | cons a ps ih =>
    cases l with
    | nil =>
      simp only [preB, Bool.false_eq_true, false_iff]
      rintro ⟨u, hu⟩
      cases hu
    | cons b ls =>
      simp [preB, pre_cons, ih, Bool.and_eq_true]

/- The step count of `replaceBvlAux` does not matter once it covers the
length of the input. -/
theorem replaceBvlAux_irrel :
    ∀ (k : Nat) (l : List Char), l.length ≤ k →
      ∀ n m : Nat, l.length ≤ n → l.length ≤ m →
        replaceBvlAux n l = replaceBvlAux m l := by
  intro k
  induction k with
  | zero =>
    intro l hl n m _ _
    have : l = [] := List.eq_nil_of_length_eq_zero (Nat.le_zero.1 hl)
    subst this
    simp [replaceBvlAux]
  | succ k ih =>
    intro l hl n m hn hm
    cases l with
    | nil => simp [replaceBvlAux]
    | cons c cs =>
      cases n with
      | zero => simp at hn
      | succ n =>
        cases m with
        | zero => simp at hm
        | succ m =>
          simp only [List.length_cons, Nat.succ_le_succ_iff] at hl hn hm
          simp only [replaceBvlAux]
          by_cases hp : preB bvlgariChars (c :: cs) = true
          · rw [if_pos hp, if_pos hp]
            have hd : (cs.drop 6).length ≤ k := by
              simp only [List.length_drop]
              omega
            rw [ih (cs.drop 6) hd n m (by simp [List.length_drop]; omega)
              (by simp [List.length_drop]; omega)]
          · rw [if_neg hp, if_neg hp]
            rw [ih cs hl n m hn hm]

theorem replaceBvl_nil : replaceBvl [] = [] := rfl

theorem replaceBvl_cons_pos {c : Char} {cs : List Char}
    (h : preB bvlgariChars (c :: cs) = true) :
    replaceBvl (c :: cs) = bulgariChars ++ replaceBvl (cs.drop 6) := by
  show replaceBvlAux (cs.length + 1) (c :: cs) = _
  simp only [replaceBvlAux, if_pos h]
  rw [replaceBvlAux_irrel cs.length (cs.drop 6)
    (by simp [List.length_drop]) cs.length (cs.drop 6).length
    (by simp [List.length_drop]) (le_refl _)]
  rfl

theorem replaceBvl_cons_neg {c : Char} {cs : List Char}
    (h : ¬ preB bvlgariChars (c :: cs) = true) :
    replaceBvl (c :: cs) = c :: replaceBvl cs := by
  show replaceBvlAux (cs.length + 1) (c :: cs) = _
  simp only [replaceBvlAux, if_neg h]
  rfl

/- No occurrence of the pattern can start inside the replacement text:
shifting an occurrence past a prepended "Bulgari" block. -/
theorem occursIn_shift {t : List Char}
    (h : occursIn bvlgariChars (bulgariChars ++ t)) :
    occursIn bvlgariChars t := by
  rcases h with ⟨i, hp⟩
  by_cases hi : 7 ≤ i
  · refine ⟨i - 7, ?_⟩
    rw [List.drop_append_eq_append_drop] at hp
    have h1 : bulgariChars.drop i = [] := by
      apply List.drop_eq_nil_of_le
      simpa [bulgariChars] using hi
    rw [h1, List.nil_append] at hp
    simpa [bulgariChars] using hp
  · exfalso
    push_neg at hi
    rw [List.drop_append_eq_append_drop] at hp
    have htk := pre_take hp
    have h7 : bvlgariChars.length = 7 := by decide
    rw [h7, List.take_append_eq_append_take] at htk
    have hlen : (bulgariChars.drop i).length = 7 - i := by
      simp [bulgariChars]
    have hfull : (bulgariChars.drop i).take 7 = bulgariChars.drop i :=
      List.take_of_length_le (by rw [hlen]; omega)
    rw [hfull, hlen] at htk
    have hc := congrArg (List.take (7 - i)) htk
    rw [List.take_append_eq_append_take, hlen, Nat.sub_self, List.take_zero,
      List.append_nil, ← hlen, List.take_length] at hc
    interval_cases i <;> exact absurd hc (by decide)

/- No non-empty proper suffix of "Bvlgari" that does not start in `s` can
start in `replaceBvl s`: the replacement "Bulgari" never supplies the
missing front of a pattern occurrence. -/
theorem tail_pre_not_in_replace :
    ∀ (k : Nat) (s : List Char), s.length ≤ k →
      ∀ q ∈ tailsOfBvl, ¬ pre q s → ¬ pre q (replaceBvl s) := by
  intro k
  induction k with
  | zero =>
    intro s hs q hq _ hcontra
    have hnil : s = [] := List.eq_nil_of_length_eq_zero (Nat.le_zero.1 hs)
    subst hnil
    rw [replaceBvl_nil] at hcontra
    have hlen := pre_length hcontra
    simp only [tailsOfBvl, List.mem_cons, List.not_mem_nil, or_false] at hq
    rcases hq with rfl | rfl | rfl | rfl | rfl | rfl <;> simp at hlen
  | succ k ih =>
    intro s hs q hq hnq hcontra
    cases s with
    | nil =>
      rw [replaceBvl_nil] at hcontra
      have hlen := pre_length hcontra
      simp only [tailsOfBvl, List.mem_cons, List.not_mem_nil, or_false] at hq
      rcases hq with rfl | rfl | rfl | rfl | rfl | rfl <;> simp at hlen
    | cons c cs =>
      have hcs : cs.length ≤ k := by
        simp only [List.length_cons] at hs
        omega
      by_cases hp : preB bvlgariChars (c :: cs) = true
      · rw [replaceBvl_cons_pos hp] at hcontra
        have htk := pre_take hcontra
        rw [List.take_append_eq_append_take] at htk
        simp only [tailsOfBvl, List.mem_cons, List.not_mem_nil, or_false] at hq
        rcases hq with rfl | rfl | rfl | rfl | rfl | rfl <;>
          simp [bulgariChars] at htk
      · rw [replaceBvl_cons_neg hp] at hcontra
        simp only [tailsOfBvl, List.mem_cons, List.not_mem_nil, or_false] at hq
        rcases hq with rfl | rfl | rfl | rfl | rfl | rfl
        · rcases pre_cons.1 hcontra with ⟨hx, hq2⟩
          subst hx
          refine ih cs hcs ['l', 'g', 'a', 'r', 'i'] (by simp [tailsOfBvl])
            (fun hc => hnq (pre_cons.2 ⟨rfl, hc⟩)) hq2
        · rcases pre_cons.1 hcontra with ⟨hx, hq2⟩
          subst hx
          refine ih cs hcs ['g', 'a', 'r', 'i'] (by simp [tailsOfBvl])
            (fun hc => hnq (pre_cons.2 ⟨rfl, hc⟩)) hq2
        · rcases pre_cons.1 hcontra with ⟨hx, hq2⟩
          subst hx
          refine ih cs hcs ['a', 'r', 'i'] (by simp [tailsOfBvl])
            (fun hc => hnq (pre_cons.2 ⟨rfl, hc⟩)) hq2
        · rcases pre_cons.1 hcontra with ⟨hx, hq2⟩
          subst hx
          refine ih cs hcs ['r', 'i'] (by simp [tailsOfBvl])
            (fun hc => hnq (pre_cons.2 ⟨rfl, hc⟩)) hq2
        · rcases pre_cons.1 hcontra with ⟨hx, hq2⟩
          subst hx
          refine ih cs hcs ['i'] (by simp [tailsOfBvl])
            (fun hc => hnq (pre_cons.2 ⟨rfl, hc⟩)) hq2
        · rcases pre_cons.1 hcontra with ⟨hx, _⟩
          subst hx
          exact hnq (pre_cons.2 ⟨rfl, pre_nil cs⟩)

/- The output of the replacement never contains the pattern "Bvlgari". -/
theorem replaceBvl_no_pattern :
    ∀ (k : Nat) (s : List Char), s.length ≤ k →
      ¬ occursIn bvlgariChars (replaceBvl s) := by
  intro k
  induction k with
  | zero =>
    intro s hs hc
    have hnil : s = [] := List.eq_nil_of_length_eq_zero (Nat.le_zero.1 hs)
    subst hnil
    rw [replaceBvl_nil] at hc
    rcases hc with ⟨i, hp⟩
    have := pre_length hp
    simp [bvlgariChars] at this
  | succ k ih =>
    intro s hs hc
    cases s with
    | nil =>
      rw [replaceBvl_nil] at hc
      rcases hc with ⟨i, hp⟩
      have := pre_length hp
      simp [bvlgariChars] at this
    | cons c cs =>
      have hcs : cs.length ≤ k := by
        simp only [List.length_cons] at hs
        omega
      by_cases hp : preB bvlgariChars (c :: cs) = true
      · rw [replaceBvl_cons_pos hp] at hc
        refine ih (cs.drop 6) ?_ (occursIn_shift hc)
        simp only [List.length_drop]
        omega
      · rw [replaceBvl_cons_neg hp] at hc
        rcases hc with ⟨i, hip⟩
        cases i with
        | zero =>
          rw [List.drop_zero] at hip
          rw [show bvlgariChars = 'B' :: ['v', 'l', 'g', 'a', 'r', 'i']
            from rfl] at hip
          rcases pre_cons.1 hip with ⟨hB, hrest⟩
          subst hB
          have hnt : ¬ pre ['v', 'l', 'g', 'a', 'r', 'i'] cs := by
            intro hc2
            exact hp (preB_iff.2
              (by rw [show bvlgariChars = 'B' :: ['v', 'l', 'g', 'a', 'r', 'i']
                from rfl]; exact pre_cons.2 ⟨rfl, hc2⟩))
          exact tail_pre_not_in_replace k cs hcs ['v', 'l', 'g', 'a', 'r', 'i']
            (by simp [tailsOfBvl]) hnt hrest
        | succ j =>
          exact ih cs hcs ⟨j, by simpa using hip⟩

/- A string with no occurrence of the pattern is returned unchanged. -/
theorem replaceBvl_id {s : List Char} (h : ¬ occursIn bvlgariChars s) :
    replaceBvl s = s := by
  induction s with
  | nil => rfl
  | cons c cs ih =>
    by_cases hp : preB bvlgariChars (c :: cs) = true
    · exact absurd ⟨0, by simpa using preB_iff.1 hp⟩ h
    · have hcs : ¬ occursIn bvlgariChars cs := by
        intro hocc
        rcases hocc with ⟨i, hip⟩
        exact h ⟨i + 1, by simpa using hip⟩
      rw [replaceBvl_cons_neg hp, ih hcs]

/- ### Claim C7 — normalization is idempotent -/

/--
C7: name normalization (`str.replace` of "Bvlgari" by "Bulgari") is
idempotent on every string, `normalize("Bvlgari") = "Bulgari" =
normalize("Bulgari")`, and replacing every occurrence of "Bvlgari" with
"Bulgari" never creates a new occurrence of "Bvlgari" in the output.
-/
theorem c7_normalize_idempotent :
    (∀ s : String, normalizeName (normalizeName s) = normalizeName s) ∧
    normalizeName "Bvlgari" = "Bulgari" ∧
    normalizeName "Bulgari" = "Bulgari" ∧
    (∀ l : List Char, ¬ occursIn bvlgariChars (replaceBvl l)) := by
  have hno : ∀ l : List Char, ¬ occursIn bvlgariChars (replaceBvl l) :=
    fun l => replaceBvl_no_pattern l.length l (le_refl _)
  refine ⟨fun s => ?_, by decide, by decide, hno⟩
  show String.mk (replaceBvl (String.mk (replaceBvl s.data)).data) = _
  rw [show (String.mk (replaceBvl s.data)).data = replaceBvl s.data from rfl,
    replaceBvl_id (hno s.data)]
  rfl

end Lvmh

namespace Lvmh

/- ### Whitespace and stripping lemmas (claim C3) -/

theorem allWs_nil : allWs [] := fun c hc => absurd hc (List.not_mem_nil c)

theorem allWs_cons {c : Char} {l : List Char} :
    allWs (c :: l) ↔ pyIsSpace c = true ∧ allWs l := by
  unfold allWs
  simp

theorem noWs_cons {c : Char} {l : List Char} :
    noWs (c :: l) ↔ pyIsSpace c = false ∧ noWs l := by
  unfold noWs
  simp

theorem allWs_append {a b : List Char} :
    allWs (a ++ b) ↔ allWs a ∧ allWs b := by
  unfold allWs
  constructor
  · intro h
    exact ⟨fun c hc => h c (List.mem_append.2 (Or.inl hc)),
      fun c hc => h c (List.mem_append.2 (Or.inr hc))⟩
  · rintro ⟨h1, h2⟩ c hc
    rcases List.mem_append.1 hc with hm | hm
    · exact h1 c hm
    · exact h2 c hm

theorem sp_isWs : pyIsSpace ' ' = true := by decide

theorem noWs_noSp {w : List Char} (h : noWs w) : ∀ c ∈ w, ¬ c = ' ' := by
  intro c hc he
  subst he
  have hf := h ' ' hc
  rw [sp_isWs] at hf
  cases hf

theorem dropWhile_allWs_append {a : List Char} (ha : allWs a) (l : List Char) :
    (a ++ l).dropWhile pyIsSpace = l.dropWhile pyIsSpace := by
  induction a with
  | nil => rfl
  | cons c a ih =>
    have hc := (allWs_cons.1 ha).1
    rw [List.cons_append, List.dropWhile_cons, hc]
    exact ih (allWs_cons.1 ha).2

theorem dropWhile_noWs_head {u : List Char} (h : noWs u) :
    u.dropWhile pyIsSpace = u := by
  cases u with
  | nil => rfl
  | cons c u =>
    rw [List.dropWhile_cons, (noWs_cons.1 h).1]
    simp

theorem allWs_reverse {l : List Char} : allWs l.reverse ↔ allWs l := by
  unfold allWs
  simp

theorem stripL_eq_nil_iff {l : List Char} : pyStripL l = [] ↔ allWs l := by
  unfold pyStripL
  rw [List.reverse_eq_nil_iff, List.dropWhile_eq_nil_iff]
  constructor
  · intro h c hc
    by_cases hm : c ∈ l.dropWhile pyIsSpace
    · exact h c (List.mem_reverse.2 hm)
    · rcases (List.mem_append.1
        (by rw [List.takeWhile_append_dropWhile] ; exact hc :
          c ∈ l.takeWhile pyIsSpace ++ l.dropWhile pyIsSpace)) with h2 | h2
      · exact List.mem_takeWhile_imp h2
      · exact absurd h2 hm
  · intro h c hc
    exact h c ((List.dropWhile_sublist pyIsSpace).subset
      (List.mem_reverse.1 hc))

theorem stripL_decomp (l : List Char) :
    ∃ a b, allWs a ∧ allWs b ∧ l = a ++ pyStripL l ++ b := by
  refine ⟨l.takeWhile pyIsSpace,
    ((l.dropWhile pyIsSpace).reverse.takeWhile pyIsSpace).reverse, ?_, ?_, ?_⟩
  · intro c hc
    exact List.mem_takeWhile_imp hc
  · intro c hc
    exact List.mem_takeWhile_imp (List.mem_reverse.1 hc)
  · conv_lhs => rw [← List.takeWhile_append_dropWhile (p := pyIsSpace) (l := l)]
    rw [List.append_assoc]
    congr 1
    conv_lhs => rw [← List.reverse_reverse (l.dropWhile pyIsSpace),
      ← List.takeWhile_append_dropWhile (p := pyIsSpace)
        (l := (l.dropWhile pyIsSpace).reverse)]
    rw [List.reverse_append]
    rfl

theorem stripL_ws_left {a : List Char} (ha : allWs a) (l : List Char) :
    pyStripL (a ++ l) = pyStripL l := by
  unfold pyStripL
  rw [dropWhile_allWs_append ha]

theorem stripL_ws_right {b : List Char} (hb : allWs b) (l : List Char) :
    pyStripL (l ++ b) = pyStripL l := by
  by_cases hl : allWs l
  · rw [stripL_eq_nil_iff.2 hl, stripL_eq_nil_iff.2 (allWs_append.2 ⟨hl, hb⟩)]
  · have hdw : (l ++ b).dropWhile pyIsSpace = l.dropWhile pyIsSpace ++ b := by
      induction l with
      | nil => exact absurd allWs_nil hl
      | cons c l ih =>
        by_cases hc : pyIsSpace c = true
        · rw [List.cons_append, List.dropWhile_cons, hc, List.dropWhile_cons, hc]
          simp only [if_true]
          by_cases hl2 : allWs l
          · exact absurd (allWs_cons.2 ⟨hc, hl2⟩) hl
          · exact ih hl2
        · rw [List.cons_append, List.dropWhile_cons,
            List.dropWhile_cons]
          simp [hc]
    unfold pyStripL
    rw [hdw, List.reverse_append, dropWhile_allWs_append (allWs_reverse.2 hb)]

theorem stripL_noWs {w : List Char} (h : noWs w) : pyStripL w = w := by
  unfold pyStripL
  rw [dropWhile_noWs_head h, dropWhile_noWs_head, List.reverse_reverse]
  intro c hc
  exact h c (List.mem_reverse.1 hc)

theorem stripL_eq_iff {w l : List Char} (hw : noWs w) :
    pyStripL l = w ↔ ∃ a b, allWs a ∧ allWs b ∧ l = a ++ w ++ b := by
  constructor
  · intro h
    rcases stripL_decomp l with ⟨a, b, ha, hb, hl⟩
    exact ⟨a, b, ha, hb, by rw [hl, h]⟩
  · rintro ⟨a, b, ha, hb, rfl⟩
    rw [List.append_assoc, stripL_ws_left ha, stripL_ws_right hb, stripL_noWs hw]

end Lvmh

namespace Lvmh

/- ### Whitespace collapsing lemmas (claim C3) -/

theorem pyIsSpace_toSp (c : Char) : pyIsSpace (toSp c) = pyIsSpace c := by
  unfold toSp
  by_cases h : pyIsSpace c = true
  · rw [if_pos h, sp_isWs, h]
  · rw [if_neg h]

theorem toSp_noWs_id {c : Char} (h : pyIsSpace c = false) : toSp c = c := by
  unfold toSp
  simp [h]

theorem toSp_ws_iff (c : Char) : pyIsSpace (toSp c) = true ↔ toSp c = ' ' := by
  unfold toSp
  by_cases h : pyIsSpace c = true
  · simp [h, sp_isWs]
  · simp only [if_neg h]
    constructor
    · intro hws
      exact absurd hws (by simp [h])
    · intro hsp
      rw [hsp]
      exact sp_isWs

theorem map_toSp_noWs {w : List Char} (h : noWs w) : w.map toSp = w := by
  induction w with
  | nil => rfl
  | cons c w ih =>
    rw [List.map_cons, toSp_noWs_id (noWs_cons.1 h).1, ih (noWs_cons.1 h).2]

theorem map_toSp_eq_noWs {w : List Char} (hw : noWs w) :
    ∀ u : List Char, u.map toSp = w → u = w := by
  induction w with
  | nil =>
    intro u hu
    simpa using hu
  | cons c w ih =>
    intro u hu
    cases u with
    | nil => cases hu
    | cons d u =>
      rw [List.map_cons] at hu
      injection hu with h1 h2
      have hd : toSp d = d := by
        by_cases hws : pyIsSpace d = true
        · exfalso
          have : toSp d = ' ' := by unfold toSp; rw [if_pos hws]
          rw [this] at h1
          have := (noWs_cons.1 hw).1
          rw [← h1] at this
          rw [sp_isWs] at this
          cases this
        · exact toSp_noWs_id (by simpa using hws)
      rw [hd] at h1
      rw [h1, ih (noWs_cons.1 hw).2 u h2]

theorem allWs_map_toSp {l : List Char} : allWs (l.map toSp) ↔ allWs l := by
  constructor
  · intro h c hc
    have := h (toSp c) (List.mem_map_of_mem toSp hc)
    rwa [pyIsSpace_toSp] at this
  · intro h c hc
    rcases List.mem_map.1 hc with ⟨x, hx, rfl⟩
    rw [pyIsSpace_toSp]
    exact h x hx

theorem sq_cons_noSp {c : Char} (h : ¬ c = ' ') (X : List Char) :
    squeezeSp (c :: X) = c :: squeezeSp X := by
  cases X with
  | nil => rfl
  | cons d X => simp [squeezeSp, h]

theorem sq_noSp_append {w : List Char} (h : ∀ c ∈ w, ¬ c = ' ') (r : List Char) :
    squeezeSp (w ++ r) = w ++ squeezeSp r := by
  induction w with
  | nil => rfl
  | cons c w ih =>
    rw [List.cons_append, sq_cons_noSp (h c (List.mem_cons_self c w)),
      ih (fun x hx => h x (List.mem_cons_of_mem c hx)), List.cons_append]

theorem sq_head (p : Char) (q : List Char) :
    ∃ t, squeezeSp (p :: q) = p :: t := by
  induction q generalizing p with
  | nil => exact ⟨[], rfl⟩
  | cons d q ih =>
    by_cases hp : p = ' '
    · by_cases hd : d = ' '
      · subst hp
        subst hd
        rcases ih ' ' with ⟨t, ht⟩
        exact ⟨t, by simp [squeezeSp, ht]⟩
      · exact ⟨squeezeSp (d :: q), by simp [squeezeSp, hd]⟩
    · exact ⟨squeezeSp (d :: q), by simp [squeezeSp, hp]⟩

theorem sq_run : ∀ (k : Nat) (r : List Char),
    squeezeSp (List.replicate (k + 1) ' ' ++ r) = squeezeSp (' ' :: r) := by
  intro k
  induction k with
  | zero => intro r; simp [List.replicate]
  | succ k ih =>
    intro r
    have h1 : List.replicate (k + 2) ' ' ++ r =
        ' ' :: ' ' :: (List.replicate k ' ' ++ r) := by
      simp [List.replicate_succ]
    rw [h1, show squeezeSp (' ' :: ' ' :: (List.replicate k ' ' ++ r)) =
      squeezeSp (' ' :: (List.replicate k ' ' ++ r)) from by simp [squeezeSp]]
    have h2 := ih r
    rw [List.replicate_succ, List.cons_append] at h2
    exact h2

theorem allWs_squeezeSp {m : List Char} : allWs (squeezeSp m) ↔ allWs m := by
  induction m with
  | nil => simp [squeezeSp]
  | cons a m ih =>
    cases m with
    | nil => simp [squeezeSp]
    | cons b r =>
      by_cases ha : a = ' '
      · by_cases hb : b = ' '
        · rw [show squeezeSp (a :: b :: r) = squeezeSp (b :: r) from
            by simp [squeezeSp, ha, hb], ih]
          subst ha
          simp [allWs_cons, sp_isWs]
        · rw [show squeezeSp (a :: b :: r) = a :: squeezeSp (b :: r) from
            by simp [squeezeSp, hb], allWs_cons, allWs_cons, ih]
      · rw [show squeezeSp (a :: b :: r) = a :: squeezeSp (b :: r) from
          by simp [squeezeSp, ha], allWs_cons, allWs_cons, ih]

theorem allWs_collapseWs {z : List Char} : allWs (collapseWs z) ↔ allWs z := by
  unfold collapseWs
  rw [allWs_squeezeSp, allWs_map_toSp]

end Lvmh

namespace Lvmh

/- A whitespace-free block flanked by whitespace in the collapsed list
comes from such a block in the original list. -/
theorem sq_decomp_fwd :
    ∀ m : List Char, (∀ c ∈ m, (pyIsSpace c = true ↔ c = ' ')) →
      ∀ w a b : List Char, noWs w → ¬ w = [] → allWs a → allWs b →
        squeezeSp m = a ++ w ++ b →
        ∃ a₂ b₂, allWs a₂ ∧ allWs b₂ ∧ m = a₂ ++ w ++ b₂ := by
  intro m
  induction m with
  | nil =>
    intro _ w a b _ hwne _ _ heq
    rcases List.append_eq_nil.1 heq.symm with ⟨h1, _⟩
    rcases List.append_eq_nil.1 h1 with ⟨_, hw0⟩
    exact absurd hw0 hwne
  | cons x m ih =>
    intro hmsp w a b hw hwne ha hb heq
    have hmsp2 : ∀ c ∈ m, (pyIsSpace c = true ↔ c = ' ') :=
      fun c hc => hmsp c (List.mem_cons_of_mem x hc)
    cases m with
    | nil =>
      rw [show squeezeSp [x] = [x] from rfl] at heq
      cases a with
      | cons a₀ a2 =>
        simp only [List.cons_append] at heq
        injection heq with _ h2
        rcases List.append_eq_nil.1 h2.symm with ⟨h3, _⟩
        rcases List.append_eq_nil.1 h3 with ⟨_, hw0⟩
        exact absurd hw0 hwne
      | nil =>
        rw [List.nil_append] at heq
        cases w with
        | nil => exact absurd rfl hwne
        | cons w₀ w2 =>
          rw [List.cons_append] at heq
          injection heq with h1 h2
          rcases List.append_eq_nil.1 h2.symm with ⟨hw2, hb2⟩
          refine ⟨[], [], allWs_nil, allWs_nil, ?_⟩
          rw [hw2, h1]
          rfl
    | cons y r =>
      by_cases hx : x = ' ' <;> by_cases hy : y = ' '
      · rw [show squeezeSp (x :: y :: r) = squeezeSp (y :: r) from
          by simp [squeezeSp, hx, hy]] at heq
        rcases ih hmsp2 w a b hw hwne ha hb heq with ⟨A, B, hA, hB, hyr⟩
        refine ⟨x :: A, B, allWs_cons.2 ⟨by rw [hx]; exact sp_isWs, hA⟩, hB, ?_⟩
        simp only [List.cons_append]
        rw [hyr]
      all_goals
        rw [show squeezeSp (x :: y :: r) = x :: squeezeSp (y :: r) from
          by simp [squeezeSp, hx, hy]] at heq
      all_goals
        cases a with
        | cons a₀ a2 =>
          simp only [List.cons_append] at heq
          injection heq with h1 h2
          rcases ih hmsp2 w a2 b hw hwne (allWs_cons.1 ha).2 hb
            (by rw [h2]) with ⟨A, B, hA, hB, hyr⟩
          refine ⟨x :: A, B,
            allWs_cons.2 ⟨by rw [h1]; exact (allWs_cons.1 ha).1, hA⟩, hB, ?_⟩
          simp only [List.cons_append]
          rw [hyr]
        | nil =>
          rw [List.nil_append] at heq
          cases w with
          | nil => exact absurd rfl hwne
          | cons w₀ w2 =>
            rw [List.cons_append] at heq
            injection heq with h1 h2
            by_cases hw2 : w2 = []
            · subst hw2
              rw [List.nil_append] at h2
              have hyr : allWs (y :: r) :=
                allWs_squeezeSp.1 (by rw [h2]; exact hb)
              refine ⟨[], y :: r, allWs_nil, hyr, ?_⟩
              rw [h1]
              rfl
            · rcases ih hmsp2 w2 [] b
                (fun c hc => hw c (List.mem_cons_of_mem w₀ hc))
                hw2 allWs_nil hb (by rw [h2]; rfl) with ⟨A, B, hA, hB, hyr⟩
              cases A with
              | nil =>
                rw [List.nil_append] at hyr
                refine ⟨[], B, allWs_nil, hB, ?_⟩
                simp only [List.nil_append, List.cons_append]
                rw [h1, hyr]
              | cons α A2 =>
                exfalso
                rcases sq_head y r with ⟨t, ht⟩
                rw [ht] at h2
                cases w2 with
                | nil => exact absurd rfl hw2
                | cons w₁ w3 =>
                  rw [List.cons_append] at h2
                  injection h2 with h3 _
                  simp only [List.cons_append] at hyr
                  injection hyr with h4 _
                  have hws_y : pyIsSpace y = true := by
                    rw [h4]
                    exact (allWs_cons.1 hA).1
                  have hy_sp : y = ' ' :=
                    (hmsp y (List.mem_cons_of_mem x (List.mem_cons_self y r))).1
                      hws_y
                  have hw₁ : ¬ w₁ = ' ' :=
                    noWs_noSp (fun c hc => hw c (List.mem_cons_of_mem w₀ hc)) w₁
                      (List.mem_cons_self w₁ w3)
                  exact hw₁ (by rw [← h3]; exact hy_sp)

end Lvmh

namespace Lvmh

theorem msp_map (z : List Char) :
    ∀ c ∈ z.map toSp, (pyIsSpace c = true ↔ c = ' ') := by
  intro c hc
  rcases List.mem_map.1 hc with ⟨x, _, rfl⟩
  exact toSp_ws_iff x

/- A whitespace-free block flanked by whitespace survives collapsing. -/
theorem sq_decomp_bwd {w : List Char} (hw : noWs w) (hwne : ¬ w = [])
    {A B : List Char} (hA : ∀ c ∈ A, c = ' ') (hB : ∀ c ∈ B, c = ' ') :
    ∃ A₂ B₂, allWs A₂ ∧ allWs B₂ ∧ squeezeSp (A ++ w ++ B) = A₂ ++ w ++ B₂ := by
  have hwsp := noWs_noSp hw
  have hBsq : allWs (squeezeSp B) :=
    allWs_squeezeSp.2 (fun c hc => by rw [hB c hc]; exact sp_isWs)
  cases A with
  | nil =>
    refine ⟨[], squeezeSp B, allWs_nil, hBsq, ?_⟩
    rw [show ([] : List Char) ++ w ++ B = w ++ B from rfl,
      sq_noSp_append hwsp]
    rfl
  | cons a₀ A2 =>
    have hrep : a₀ :: A2 = List.replicate (A2.length + 1) ' ' := by
      have := List.eq_replicate_of_mem hA
      simpa using this
    rw [List.append_assoc, hrep, sq_run]
    cases w with
    | nil => exact absurd rfl hwne
    | cons w₀ w2 =>
      have hw₀ : ¬ w₀ = ' ' := hwsp w₀ (List.mem_cons_self w₀ w2)
      rw [List.cons_append,
        show squeezeSp (' ' :: w₀ :: (w2 ++ B)) =
          ' ' :: squeezeSp (w₀ :: (w2 ++ B)) from by simp [squeezeSp, hw₀],
        ← List.cons_append, sq_noSp_append hwsp]
      refine ⟨[' '], squeezeSp B, ?_, hBsq, ?_⟩
      · intro c hc
        rcases List.mem_singleton.1 hc with rfl
        exact sp_isWs
      · simp [List.cons_append, List.append_assoc]

theorem collapse_decomp {z w : List Char} (hw : noWs w) (hwne : ¬ w = []) :
    (∃ a b, allWs a ∧ allWs b ∧ collapseWs z = a ++ w ++ b) ↔
    (∃ a b, allWs a ∧ allWs b ∧ z = a ++ w ++ b) := by
  unfold collapseWs
  constructor
  · rintro ⟨a, b, ha, hb, heq⟩
    rcases sq_decomp_fwd (z.map toSp) (msp_map z) w a b hw hwne ha hb heq
      with ⟨A, B, hA, hB, hmz⟩
    refine ⟨z.take A.length, (z.drop A.length).drop w.length, ?_, ?_, ?_⟩
    · intro c hc
      have hm : toSp c ∈ (z.take A.length).map toSp :=
        List.mem_map_of_mem toSp hc
      rw [List.map_take, hmz, List.append_assoc, List.take_left] at hm
      have := hA (toSp c) hm
      rwa [pyIsSpace_toSp] at this
    · intro c hc
      have hm : toSp c ∈ ((z.drop A.length).drop w.length).map toSp :=
        List.mem_map_of_mem toSp hc
      rw [List.map_drop, List.map_drop, hmz, List.append_assoc,
        List.drop_left, List.drop_left] at hm
      have := hB (toSp c) hm
      rwa [pyIsSpace_toSp] at this
    · have hmid : (z.drop A.length).take w.length = w := by
        apply map_toSp_eq_noWs hw
        rw [List.map_take, List.map_drop, hmz, List.append_assoc,
          List.drop_left]
        exact List.take_left w B
      conv_lhs => rw [← List.take_append_drop A.length z,
        ← List.take_append_drop w.length (z.drop A.length)]
      rw [hmid, ← List.append_assoc]
  · rintro ⟨a, b, ha, hb, rfl⟩
    rw [List.map_append, List.map_append, map_toSp_noWs hw]
    have hallSp : ∀ u : List Char, allWs u → ∀ c ∈ u.map toSp, c = ' ' := by
      intro u hu c hc
      rcases List.mem_map.1 hc with ⟨x, hx, rfl⟩
      unfold toSp
      rw [if_pos (hu x hx)]
    exact sq_decomp_bwd hw hwne (hallSp a ha) (hallSp b hb)

/- Whitespace collapsing does not affect whether the stripped text equals
a given whitespace-free word. -/
theorem stripL_collapse_eq {z w : List Char} (hw : noWs w) :
    pyStripL (collapseWs z) = w ↔ pyStripL z = w := by
  by_cases hwne : w = []
  · subst hwne
    rw [stripL_eq_nil_iff, stripL_eq_nil_iff, allWs_collapseWs]
  · rw [stripL_eq_iff hw, stripL_eq_iff hw, collapse_decomp hw hwne]

end Lvmh

namespace Lvmh

/- ### Citation-stripping lemmas (claim C3) -/

theorem dropWhile_append_of_ne_nil {p : Char → Bool} {l : List Char}
    (h : ¬ l.dropWhile p = []) (l₂ : List Char) :
    (l ++ l₂).dropWhile p = l.dropWhile p ++ l₂ := by
  induction l with
  | nil => exact absurd rfl h
  | cons c l ih =>
    by_cases hc : p c = true
    · rw [List.cons_append, List.dropWhile_cons, hc, List.dropWhile_cons, hc]
      simp only [if_true]
      have h2 : ¬ l.dropWhile p = [] := by
        rw [List.dropWhile_cons, hc] at h
        simpa using h
      exact ih h2
    · rw [List.cons_append, List.dropWhile_cons, List.dropWhile_cons]
      simp [hc]

theorem stripCitationsAux_irrel :
    ∀ (k : Nat) (l : List Char), l.length ≤ k →
      ∀ n m : Nat, l.length ≤ n → l.length ≤ m →
        stripCitationsAux n l = stripCitationsAux m l := by
  intro k
  induction k with
  | zero =>
    intro l hl n m _ _
    have : l = [] := List.eq_nil_of_length_eq_zero (Nat.le_zero.1 hl)
    subst this
    simp [stripCitationsAux]
  | succ k ih =>
    intro l hl n m hn hm
    cases l with
    | nil => simp [stripCitationsAux]
    | cons c cs =>
      cases n with
      | zero => simp at hn
      | succ n =>
        cases m with
        | zero => simp at hm
        | succ m =>
          simp only [List.length_cons, Nat.succ_le_succ_iff] at hl hn hm
          simp only [stripCitationsAux]
          by_cases hc : c = '【'
          · rw [if_pos hc, if_pos hc]
            cases hdw : cs.dropWhile (fun d => ¬ d = '】') with
            | nil =>
              show c :: stripCitationsAux n cs = c :: stripCitationsAux m cs
              rw [ih cs hl n m hn hm]
            | cons d rest =>
              have hsub : List.Sublist (cs.dropWhile (fun d => ¬ d = '】')) cs :=
                List.dropWhile_sublist _
              have hrl : rest.length < cs.length := by
                have := hsub.length_le
                rw [hdw] at this
                simp only [List.length_cons] at this
                omega
              show stripCitationsAux n rest = stripCitationsAux m rest
              exact ih rest (by omega) n m (by omega) (by omega)
          · rw [if_neg hc, if_neg hc, ih cs hl n m hn hm]

theorem sc_cons_neg {c : Char} {cs : List Char} (h : ¬ c = '【') :
    stripCitations (c :: cs) = c :: stripCitations cs := by
  show stripCitationsAux (cs.length + 1) (c :: cs) = _
  simp only [stripCitationsAux, if_neg h]
  rfl

theorem sc_cons_open_nil {cs : List Char}
    (h : cs.dropWhile (fun d => ¬ d = '】') = []) :
    stripCitations ('【' :: cs) = '【' :: stripCitations cs := by
  show stripCitationsAux (cs.length + 1) ('【' :: cs) = _
  simp only [stripCitationsAux, if_pos rfl, h]
  rfl

theorem sc_cons_open_cons {cs d rest} 
    (h : cs.dropWhile (fun x => ¬ x = '】') = d :: rest) :
    stripCitations ('【' :: cs) = stripCitations rest := by
  show stripCitationsAux (cs.length + 1) ('【' :: cs) = _
  simp only [stripCitationsAux, if_pos rfl, h]
  have hsub : List.Sublist (cs.dropWhile (fun x => ¬ x = '】')) cs :=
    List.dropWhile_sublist _
  have hrl : rest.length ≤ cs.length := by
    have := hsub.length_le
    rw [h] at this
    simp only [List.length_cons] at this
    omega
  exact stripCitationsAux_irrel cs.length rest hrl cs.length rest.length hrl
    (le_refl _)

theorem sc_id_no_open {b : List Char} (h : ∀ c ∈ b, ¬ c = '【') :
    stripCitations b = b := by
  induction b with
  | nil => rfl
  | cons c b ih =>
    rw [sc_cons_neg (h c (List.mem_cons_self c b)),
      ih (fun x hx => h x (List.mem_cons_of_mem c hx))]

theorem sc_append_left {a : List Char} (h : ∀ c ∈ a, ¬ c = '【')
    (x : List Char) : stripCitations (a ++ x) = a ++ stripCitations x := by
  induction a with
  | nil => rfl
  | cons c a ih =>
    rw [List.cons_append, sc_cons_neg (h c (List.mem_cons_self c a)),
      ih (fun d hd => h d (List.mem_cons_of_mem c hd)), List.cons_append]

theorem sc_append_right :
    ∀ (k : Nat) (x : List Char), x.length ≤ k →
      ∀ b : List Char, (∀ c ∈ b, ¬ c = '【' ∧ ¬ c = '】') →
        stripCitations (x ++ b) = stripCitations x ++ b := by
  intro k
  induction k with
  | zero =>
    intro x hx b hb
    have : x = [] := List.eq_nil_of_length_eq_zero (Nat.le_zero.1 hx)
    subst this
    rw [List.nil_append, sc_id_no_open (fun c hc => (hb c hc).1)]
    rfl
  | succ k ih =>
    intro x hx b hb
    cases x with
    | nil =>
      rw [List.nil_append, sc_id_no_open (fun c hc => (hb c hc).1)]
      rfl
    | cons c cs =>
      have hcs : cs.length ≤ k := by
        simp only [List.length_cons] at hx
        omega
      by_cases hc : c = '【'
      · subst hc
        rw [List.cons_append]
        cases hdw : cs.dropWhile (fun d => ¬ d = '】') with
        | nil =>
          have hall : ∀ d ∈ cs, ¬ d = '】' → True := fun _ _ _ => trivial
          have hdw2 : (cs ++ b).dropWhile (fun d => ¬ d = '】') = [] := by
            rw [List.dropWhile_eq_nil_iff] at hdw ⊢
            intro d hd
            rcases List.mem_append.1 hd with hm | hm
            · exact hdw d hm
            · simp [(hb d hm).2]
          rw [sc_cons_open_nil hdw2, sc_cons_open_nil hdw,
            ih cs hcs b hb, List.cons_append]
        | cons d rest =>
          have hne : ¬ cs.dropWhile (fun d => ¬ d = '】') = [] := by
            rw [hdw]
            simp
          have hdw2 : (cs ++ b).dropWhile (fun d => ¬ d = '】') =
              d :: (rest ++ b) := by
            rw [dropWhile_append_of_ne_nil hne, hdw, List.cons_append]
          rw [sc_cons_open_cons hdw2, sc_cons_open_cons hdw]
          have hsub : List.Sublist (cs.dropWhile (fun x => ¬ x = '】')) cs :=
            List.dropWhile_sublist _
          have hrl : rest.length ≤ k := by
            have := hsub.length_le
            rw [hdw] at this
            simp only [List.length_cons] at this
            omega
          exact ih rest hrl b hb
      · rw [List.cons_append, sc_cons_neg hc, sc_cons_neg hc,
          ih cs hcs b hb, List.cons_append]

theorem ws_no_brackets {c : Char} (h : pyIsSpace c = true) :
    ¬ c = '【' ∧ ¬ c = '】' := by
  unfold pyIsSpace at h
  simp only [Bool.or_eq_true, decide_eq_true_eq] at h
  rcases h with ((((h | h) | h) | h) | h) | h <;> subst h <;>
    exact ⟨by decide, by decide⟩

/- Pre-stripping the cell does not change the stripped result of
citation removal. -/
theorem strip_sc_strip (s : List Char) :
    pyStripL (stripCitations (pyStripL s)) = pyStripL (stripCitations s) := by
  rcases stripL_decomp s with ⟨a, b, ha, hb, hs⟩
  conv_rhs => rw [hs]
  rw [List.append_assoc,
    sc_append_left (fun c hc => (ws_no_brackets (ha c hc)).1),
    sc_append_right (pyStripL s).length (pyStripL s) (le_refl _) b
      (fun c hc => ws_no_brackets (hb c hc)),
    stripL_ws_left ha, stripL_ws_right hb]

end Lvmh

namespace Lvmh

theorem toLower_ws {c : Char} (h : pyIsSpace c = true) : Char.toLower c = c := by
  unfold pyIsSpace at h
  simp only [Bool.or_eq_true, decide_eq_true_eq] at h
  rcases h with ((((h | h) | h) | h) | h) | h <;> subst h <;> decide

theorem lower_nan_noWs {u : List Char}
    (h : pyLower u = ['n', 'a', 'n']) : noWs u := by
  intro c hc
  by_contra hws
  have hws2 : pyIsSpace c = true := by
    cases h2 : pyIsSpace c
    · exact absurd h2 hws
    · rfl
  have hmem : Char.toLower c ∈ pyLower u := List.mem_map_of_mem Char.toLower hc
  rw [h, toLower_ws hws2] at hmem
  simp only [List.mem_cons, List.not_mem_nil, or_false] at hmem
  rcases hmem with hm | hm | hm <;> rw [hm] at hws2 <;>
    exact absurd hws2 (by decide)

/- The cell-level test of count_activities_for_maison coincides with the
rule stated in the specification. -/
theorem cell_equiv (cell : Cell) :
    stdActivityCounted cell = specActivityCounted cell := by
  cases cell with
  | na => rfl
  | str s =>
    show (if pyStripL s.data = [] then false
      else
        match cleanCitations (pyStripL s.data) with
        | none => false
        | some u =>
          decide (¬ u = ['0']) && decide (¬ pyLower u = ['n', 'a', 'n']) &&
            decide (¬ pyLower u = [])) =
      (decide (¬ pyStripL (stripCitations s.data) = []) &&
        decide (¬ pyStripL (stripCitations s.data) = ['0']) &&
        decide (¬ pyLower (pyStripL (stripCitations s.data)) = ['n', 'a', 'n']))
    by_cases ht : pyStripL s.data = []
    · rw [if_pos ht]
      have hws : allWs s.data := stripL_eq_nil_iff.1 ht
      have hsc : stripCitations s.data = s.data :=
        sc_id_no_open (fun c hc => (ws_no_brackets (hws c hc)).1)
      simp [hsc, ht]
    · rw [if_neg ht]
      have hM1 := strip_sc_strip s.data
      unfold cleanCitations
      by_cases hy : pyStripL (collapseWs (stripCitations (pyStripL s.data))) = []
      · rw [if_pos hy]
        have hveq := stripL_collapse_eq
          (z := stripCitations (pyStripL s.data)) (w := ([] : List Char))
          (fun c hc => absurd hc (List.not_mem_nil c))
        have hv : pyStripL (stripCitations s.data) = [] := by
          rw [← hM1]
          exact hveq.1 hy
        simp [hv]
      · rw [if_neg hy]
        have hveq : ∀ w : List Char, noWs w →
            (pyStripL (collapseWs (stripCitations (pyStripL s.data))) = w ↔
             pyStripL (stripCitations s.data) = w) := by
          intro w hw
          rw [← hM1]
          exact stripL_collapse_eq hw
        have hv_ne : ¬ pyStripL (stripCitations s.data) = [] := by
          intro hc
          exact hy ((hveq [] (fun c hc2 => absurd hc2 (List.not_mem_nil c))).2 hc)
        have h0 := hveq ['0']
          (fun c hc => by rcases List.mem_singleton.1 hc with rfl; decide)
        have hnan :
            (pyLower (pyStripL (collapseWs (stripCitations (pyStripL s.data)))) =
              ['n', 'a', 'n']) ↔
            (pyLower (pyStripL (stripCitations s.data)) = ['n', 'a', 'n']) := by
          constructor
          · intro h
            have hnw := lower_nan_noWs h
            rw [← (hveq _ hnw).1 rfl] at h
            exact h
          · intro h
            have hnw := lower_nan_noWs h
            rw [(hveq _ hnw).2 rfl]
            exact h
        have hlow_ne :
            ¬ pyLower (pyStripL (collapseWs (stripCitations (pyStripL s.data)))) =
              [] := by
          intro hc
          exact hy (List.map_eq_nil_iff.1 hc)
        simp only [h0, hnan]
        simp [hv_ne, hlow_ne]

/- The standardized verified counter follows the specification rule for
every row and category. -/
theorem count_activities_spec (row : DetailRow) (category : String) :
    count_activities_for_maison row category =
      (row.cells.filter (fun p =>
        strStarts p.1 (category ++ "_") && specActivityCounted p.2)).length := by
  unfold count_activities_for_maison
  congr 1
  apply List.filter_congr
  intro p _
  rw [cell_equiv p.2]

/- ### Claim C3 — the verified-count rule -/

/--
C3 counterexample: on the specification example row
`["Launched X【...】", "", "0", "nan", "Opened store"]` the stated rule
counts 2, but `count_mentions_in_details` (one of the two verified-count
derivers) counts 4 — it strips no citation markers and does not exclude
"0" or "nan" — so not every deriver applies the rule.
-/
theorem c3_counterexample :
    (exDetailRow.cells.filter (fun p =>
      strStarts p.1 "Product_" && specActivityCounted p.2)).length = 2 ∧
    count_mentions_in_details exDetailRow "Product" = 4 := by
  constructor
  · decide
  · decide

/--
C3 amended: `count_activities_for_maison` (the standardized deriver)
applies exactly the stated rule — non-empty after trimming whitespace and
stripping bracketed citation markers, excluding "0" and case-insensitive
"nan" — to every cell of every category, and yields 2 on the
specification example; but `count_mentions_in_details` merely counts
present, non-null cells whose raw string strips to non-empty, and yields
4 on the same example.
-/
theorem c3_amended_verified_count_rule :
    (∀ (row : DetailRow) (category : String),
      count_activities_for_maison row category =
        (row.cells.filter (fun p =>
          strStarts p.1 (category ++ "_") && specActivityCounted p.2)).length) ∧
    count_activities_for_maison exDetailRow "Product" = 2 ∧
    count_mentions_in_details exDetailRow "Product" = 4 :=
  ⟨count_activities_spec, by decide, by decide⟩

end Lvmh

namespace Lvmh

/--
Witness for C7 at a concrete string containing an interleaved spelling:
one application of the normalizer is a fixed point of a second one.
-/
theorem c7_normalize_idempotent_witness :
    normalizeName (normalizeName "BvBvlgarilgari") =
      normalizeName "BvBvlgarilgari" :=
  c7_normalize_idempotent.1 "BvBvlgarilgari"

end Lvmh
